import Mathlib

/-!
# LArPandoraExternalEventBuilding

A shallow embedding of the slice-collection and consolidation code of
`larpandora/LArPandoraEventBuilding/LArPandoraExternalEventBuilding_module.cc`
together with theorems about it.

Conventions of the embedding:

* `std::vector<T>` is `List T`; `push_back` appends at the end.
* `std::map<K, V>` is an association list read with `mapFind` (first match) and
  written with `mapAssign` (`operator[]` followed by an assignment).  The code
  never iterates over the maps that it writes, so the position of an entry is
  not observable.
* a thrown `cet::exception` is `Except.error`; a `try`/`catch` block is a
  `match` on the `Except` value of the guarded call.
* output reference parameters are passed in and returned.
-/

namespace lar_pandora

/-! ## Values -/

/-- A single-precision value as stored in a metadata properties map.  A finite
value is the dyadic rational `m / 2 ^ k` (every finite `float` has this form). -/
inductive Float32 where
  | finite (m : Int) (k : Nat)
  | inf (negative : Bool)
  | nan
  deriving DecidableEq, Repr

namespace Float32

/-- The function `std::round`: nearest integer, halfway cases away from zero;
infinities and NaN are returned unchanged. -/
def round : Float32 → Float32
  | finite m k => finite (Int.sign m * (((2 * m.natAbs + 2 ^ k) / (2 * 2 ^ k) : Nat) : Int)) 0
  | inf negative => inf negative
  | nan => nan

/-- The conversion `static_cast<bool>`: true exactly when the value compares
unequal to zero (so infinities and NaN convert to true). -/
def toBool : Float32 → Bool
  | finite m _ => decide (m ≠ 0)
  | inf _ => true
  | nan => true

/-- The conversion `static_cast<unsigned int>`: truncation towards zero.  The
conversion is undefined in C++ when the truncated value is not representable; the
embedding then wraps a finite value modulo `2 ^ 32` and sends a non-finite one
to `0`. -/
def toUInt : Float32 → Nat
  | finite m k => (Int.tdiv m (2 ^ k) % 2 ^ 32).toNat
  | inf _ => 0
  | nan => 0

end Float32

/-! ## Data model -/

/-- A handle `art::Ptr<recob::PFParticle>`: the key of the handle together with
the fields of the particle that the code reads (`Self()`, `Parent()`; a primary
particle has no parent). -/
structure PFParticle where
  key : Nat
  self : Nat
  parent : Option Nat
  deriving DecidableEq, Repr

/-- The record `larpandoraobj::PFParticleMetadata`: a properties map from key to
value. -/
structure PFParticleMetadata where
  propertiesMap : List (String × Float32)
  deriving DecidableEq, Repr

abbrev PFParticleVector := List PFParticle

/-- The conversion of a `size_t` value to `int`: the value modulo `2 ^ 32`, read
in two's complement. -/
def narrowToInt (n : Nat) : Int :=
  if n % 2 ^ 32 < 2 ^ 31 then Int.ofNat (n % 2 ^ 32) else Int.ofNat (n % 2 ^ 32) - 2 ^ 32

/-- The type `PFParticleMap`, which `LArPandoraHelper.h` declares as
`std::map<int, art::Ptr<recob::PFParticle>>`: the key is an `int`, to which the
`size_t` identifiers `Self()` and `Parent()` are converted. -/
abbrev PFParticleMap := List (Int × PFParticle)

abbrev PFParticleToMetadata := List (PFParticle × PFParticleMetadata)

/-- The exceptions thrown by the module, named by what they report. -/
inductive Error where
  /-- The message "No key ... found in metadata properties map". -/
  | missingKey (key : String)
  /-- The message "Found PFParticle without metadata". -/
  | orphanedParticle
  /-- The message "Scrambled slice information", with the slice id. -/
  | scrambledSlice (sliceId : Nat)
  /-- The message "Repeated PFParticles". -/
  | repeatedParticles
  /-- The parent chain of a particle does not reach a root. -/
  | malformedHierarchy
  deriving DecidableEq, Repr

/-- The member function `std::map::find`, returning the mapped value. -/
def mapFind {K V : Type} [DecidableEq K] : List (K × V) → K → Option V
  | [], _ => none
  | (k', v) :: rest, k => if k' = k then some v else mapFind rest k

/-- The statement `m[k] = v`: overwrite the entry for `k` or create it. -/
def mapAssign {K V : Type} [DecidableEq K] : List (K × V) → K → V → List (K × V)
  | [], k, v => [(k, v)]
  | (k', v') :: rest, k, v =>
    if k' = k then (k, v) :: rest else (k', v') :: mapAssign rest k v

/-- Modelled from the spec: `Slice.h` is not among the sources.  A Slice has a
target score, a target-hypothesis particle list, a cosmic-ray hypothesis
particle list and the is-tagged-as-target flag, which the collector leaves
cleared and the external classifier sets. -/
structure Slice where
  m_targetScore : Float32
  m_targetHypothesis : PFParticleVector
  m_crHypothesis : PFParticleVector
  m_isTaggedAsTarget : Bool
  deriving DecidableEq, Repr

namespace Slice

def GetTargetScore (s : Slice) : Float32 := s.m_targetScore

def GetTargetHypothesis (s : Slice) : PFParticleVector := s.m_targetHypothesis

def GetCosmicRayHypothesis (s : Slice) : PFParticleVector := s.m_crHypothesis

def IsTaggedAsTarget (s : Slice) : Bool := s.m_isTaggedAsTarget

end Slice

abbrev SliceVector := List Slice

/-- Modelled from the spec: `LArPandoraHelper::GetParentPFParticle` is not among
the sources.  Follows parent links from the particle until a particle with no
parent is reached; `fuel` bounds the number of particles visited, and a parent
identifier, converted to the `int` key of the map, without an entry in the map,
like exhausted fuel, is a malformed hierarchy. -/
def getRootAux (particleMap : PFParticleMap) : Nat → PFParticle → Except Error PFParticle
  | 0, _ => .error .malformedHierarchy
  | fuel + 1, particle =>
    match particle.parent with
    | none => .ok particle
    | some parentId =>
      match mapFind particleMap (narrowToInt parentId) with
      | none => .error .malformedHierarchy
      | some parentParticle => getRootAux particleMap fuel parentParticle

/-- Modelled from the spec: `LArPandoraHelper::GetParentPFParticle` is not among
the sources.  The root of the hierarchy of a particle, the traversal being
bounded by the size of the map. -/
def GetParentPFParticle (particleMap : PFParticleMap) (particle : PFParticle) :
    Except Error PFParticle :=
  getRootAux particleMap (particleMap.length + 1) particle

/-! ## The module -/

/-- The data members of the module that the collection code reads. -/
structure LArPandoraExternalEventBuilding where
  m_useTestBeamMode : Bool
  m_targetKey : String
  m_scoreKey : String
  deriving DecidableEq, Repr

namespace LArPandoraExternalEventBuilding

/-- The constructor: `ShouldUseTestBeamMode` defaults to false and selects both
keys. -/
def create (shouldUseTestBeamMode : Option Bool) : LArPandoraExternalEventBuilding :=
  let useTestBeamMode := shouldUseTestBeamMode.getD false
  ⟨useTestBeamMode,
   if useTestBeamMode then "IsTestBeam" else "IsNeutrino",
   if useTestBeamMode then "TestBeamScore" else "NuScore"⟩

/-- The member function `GetMetadataValue`: the value stored under `key`, or
the exception when the key is absent. -/
def GetMetadataValue (metadata : PFParticleMetadata) (key : String) : Except Error Float32 :=
  match mapFind metadata.propertiesMap key with
  | none => .error (.missingKey key)
  | some value => .ok value

/-- The member function `IsTarget`: the rounded value under the target key as a
boolean, false when the lookup throws. -/
def IsTarget (self : LArPandoraExternalEventBuilding) (metadata : PFParticleMetadata) : Bool :=
  match GetMetadataValue metadata self.m_targetKey with
  | .ok value => value.round.toBool
  | .error _ => false

/-- One iteration of the loop of `CollectClearCosmicRays`. -/
def collectClearCosmicRaysStep (particlesToMetadata : PFParticleToMetadata)
    (particleMap : PFParticleMap) (clearCosmics : PFParticleVector) (part : PFParticle) :
    Except Error PFParticleVector :=
  match GetParentPFParticle particleMap part with
  | .error e => .error e
  | .ok parent =>
    match mapFind particlesToMetadata parent with
    | none => .error .orphanedParticle
    | some metadata =>
      match GetMetadataValue metadata "IsClearCosmic" with
      | .ok value => if value.round.toBool then .ok (clearCosmics ++ [part]) else .ok clearCosmics
      | .error _ => .ok clearCosmics

/-- The member function `CollectClearCosmicRays`; `clearCosmics` is the output
vector, which `produce` passes in empty. -/
def CollectClearCosmicRays (particlesToMetadata : PFParticleToMetadata)
    (particleMap : PFParticleMap) :
    PFParticleVector → PFParticleVector → Except Error PFParticleVector
  | [], clearCosmics => .ok clearCosmics
  | part :: rest, clearCosmics =>
    match collectClearCosmicRaysStep particlesToMetadata particleMap clearCosmics part with
    | .error e => .error e
    | .ok clearCosmics' => CollectClearCosmicRays particlesToMetadata particleMap rest clearCosmics'

/-- The local containers of `CollectSlices`. -/
structure SliceInfo where
  targetScores : List (Nat × Float32)
  crHypotheses : List (Nat × PFParticleVector)
  targetHypotheses : List (Nat × PFParticleVector)
  usedSliceIds : List Nat
  deriving DecidableEq, Repr

/-- The statement `hypotheses[sliceId].push_back(part)`. -/
def pushBackAt (hypotheses : List (Nat × PFParticleVector)) (sliceId : Nat) (part : PFParticle) :
    List (Nat × PFParticleVector) :=
  mapAssign hypotheses sliceId ((mapFind hypotheses sliceId).getD [] ++ [part])

/-- One iteration of the first loop of `CollectSlices`. -/
def collectSlicesStep (self : LArPandoraExternalEventBuilding)
    (particlesToMetadata : PFParticleToMetadata) (particleMap : PFParticleMap)
    (info : SliceInfo) (part : PFParticle) : Except Error SliceInfo :=
  match GetParentPFParticle particleMap part with
  | .error e => .error e
  | .ok parent =>
    match mapFind particlesToMetadata parent with
    | none => .error .orphanedParticle
    | some metadata =>
      let isClearCosmic : Bool :=
        match GetMetadataValue metadata "IsClearCosmic" with
        | .ok value => value.round.toBool
        | .error _ => false
      if isClearCosmic then .ok info
      else
        match GetMetadataValue metadata "SliceIndex" with
        | .error e => .error e
        | .ok sliceValue =>
          let sliceId : Nat := sliceValue.round.toUInt
          match GetMetadataValue metadata self.m_scoreKey with
          | .error e => .error e
          | .ok targetScore =>
            let info1 : SliceInfo :=
              if sliceId ∈ info.usedSliceIds then info
              else ⟨mapAssign info.targetScores sliceId targetScore, info.crHypotheses,
                    info.targetHypotheses, info.usedSliceIds ++ [sliceId]⟩
            if self.IsTarget metadata then
              .ok ⟨info1.targetScores, info1.crHypotheses,
                   pushBackAt info1.targetHypotheses sliceId part, info1.usedSliceIds⟩
            else
              .ok ⟨info1.targetScores, pushBackAt info1.crHypotheses sliceId part,
                   info1.targetHypotheses, info1.usedSliceIds⟩

/-- The first loop of `CollectSlices`. -/
def collectSlicesLoop (self : LArPandoraExternalEventBuilding)
    (particlesToMetadata : PFParticleToMetadata) (particleMap : PFParticleMap) :
    PFParticleVector → SliceInfo → Except Error SliceInfo
  | [], info => .ok info
  | part :: rest, info =>
    match collectSlicesStep self particlesToMetadata particleMap info part with
    | .error e => .error e
    | .ok info' => collectSlicesLoop self particlesToMetadata particleMap rest info'

/-- The second loop of `CollectSlices`: one Slice per used slice id. -/
def produceSlices (info : SliceInfo) : List Nat → SliceVector → Except Error SliceVector
  | [], slices => .ok slices
  | sliceId :: rest, slices =>
    match mapFind info.targetScores sliceId with
    | none => .error (.scrambledSlice sliceId)
    | some targetScore =>
      produceSlices info rest
        (slices ++ [⟨targetScore, (mapFind info.targetHypotheses sliceId).getD [],
                     (mapFind info.crHypotheses sliceId).getD [], false⟩])

/-- The member function `CollectSlices`; `slices` is the output vector, which
`produce` passes in empty.  `std::sort` on unsigned integers is any ascending
sort. -/
def CollectSlices (self : LArPandoraExternalEventBuilding)
    (allParticles : PFParticleVector) (particlesToMetadata : PFParticleToMetadata)
    (particleMap : PFParticleMap) (slices : SliceVector) : Except Error SliceVector :=
  match collectSlicesLoop self particlesToMetadata particleMap allParticles ⟨[], [], [], []⟩ with
  | .error e => .error e
  | .ok info => produceSlices info (info.usedSliceIds.insertionSort (· ≤ ·)) slices

/-- The first loop of `CollectConsolidatedParticles`: append the selected
hypothesis of every slice. -/
def collectSelected : SliceVector → PFParticleVector → PFParticleVector
  | [], collectedParticles => collectedParticles
  | slice :: rest, collectedParticles =>
    collectSelected rest
      (collectedParticles ++
        (if slice.IsTaggedAsTarget then slice.GetTargetHypothesis
         else slice.GetCosmicRayHypothesis))

/-- The second loop of `CollectConsolidatedParticles`: keep the particles found
in `collectedParticles`. -/
def retainCollected (collectedParticles : PFParticleVector) :
    PFParticleVector → PFParticleVector → PFParticleVector
  | [], consolidatedParticles => consolidatedParticles
  | part :: rest, consolidatedParticles =>
    retainCollected collectedParticles rest
      (if part ∈ collectedParticles then consolidatedParticles ++ [part]
       else consolidatedParticles)

/-- The member function `CollectConsolidatedParticles`; `consolidatedParticles`
is the output vector, which `produce` passes in empty. -/
def CollectConsolidatedParticles (allParticles clearCosmics : PFParticleVector)
    (slices : SliceVector) (consolidatedParticles : PFParticleVector) : PFParticleVector :=
  retainCollected (collectSelected slices ([] ++ clearCosmics)) allParticles consolidatedParticles

/-- The call `m.insert(value_type(k, v))`: the map and whether the insertion
took place (it does not when the key is present). -/
def mapInsert {K V : Type} [DecidableEq K] (m : List (K × V)) (k : K) (v : V) :
    List (K × V) × Bool :=
  match mapFind m k with
  | some _ => (m, false)
  | none => (m ++ [(k, v)], true)

/-- The member function `BuildPFParticleMap`; `particleMap` is the output map,
which `produce` passes in empty. -/
def BuildPFParticleMap : PFParticleToMetadata → PFParticleMap → Except Error PFParticleMap
  | [], particleMap => .ok particleMap
  | entry :: rest, particleMap =>
    if (mapInsert particleMap (narrowToInt entry.1.self) entry.1).2 then
      BuildPFParticleMap rest (mapInsert particleMap (narrowToInt entry.1.self) entry.1).1
    else .error .repeatedParticles

/-- The member function `produce` between `CollectPFParticles`, whose outputs are
`particles` and `particlesToMetadata`, and the construction of the consolidated
event; `classifySlices` stands for the slice id tool. -/
def produce (self : LArPandoraExternalEventBuilding) (classifySlices : SliceVector → SliceVector)
    (particles : PFParticleVector) (particlesToMetadata : PFParticleToMetadata) :
    Except Error PFParticleVector :=
  match BuildPFParticleMap particlesToMetadata [] with
  | .error e => .error e
  | .ok particleMap =>
    match CollectClearCosmicRays particlesToMetadata particleMap particles [] with
    | .error e => .error e
    | .ok clearCosmics =>
      match CollectSlices self particles particlesToMetadata particleMap [] with
      | .error e => .error e
      | .ok slices =>
        .ok (CollectConsolidatedParticles particles clearCosmics (classifySlices slices) [])

/-! ## Definitions used to state and to prove the properties -/

/-- The metadata record that the collectors read for a particle: the record of
its root, when the root resolves and has a record. -/
def rootMetadata (particlesToMetadata : PFParticleToMetadata) (particleMap : PFParticleMap)
    (part : PFParticle) : Option PFParticleMetadata :=
  match GetParentPFParticle particleMap part with
  | .error _ => none
  | .ok parent => mapFind particlesToMetadata parent

/-- Every particle of the list resolves to a root that has a metadata record. -/
def RootsHaveMetadata (particlesToMetadata : PFParticleToMetadata) (particleMap : PFParticleMap)
    (allParticles : PFParticleVector) : Prop :=
  ∀ p ∈ allParticles, ∃ parent metadata,
    GetParentPFParticle particleMap p = .ok parent ∧
    mapFind particlesToMetadata parent = some metadata

/-- The clear-cosmic flag of a record: the key "IsClearCosmic" is present with a
value that rounds to a non-zero number. -/
def isClearCosmic (metadata : PFParticleMetadata) : Bool :=
  match mapFind metadata.propertiesMap "IsClearCosmic" with
  | some value => value.round.toBool
  | none => false

/-- The rounded slice index of a record, when the key "SliceIndex" is present. -/
def sliceIndex (metadata : PFParticleMetadata) : Option Nat :=
  match mapFind metadata.propertiesMap "SliceIndex" with
  | some value => some value.round.toUInt
  | none => none

/-- The root of the particle is clear cosmic. -/
def rootIsClearCosmic (particlesToMetadata : PFParticleToMetadata) (particleMap : PFParticleMap)
    (part : PFParticle) : Bool :=
  match rootMetadata particlesToMetadata particleMap part with
  | some metadata => isClearCosmic metadata
  | none => false

/-- The root of the particle is not clear cosmic and has rounded slice index
`sliceId`. -/
def inSlice (particlesToMetadata : PFParticleToMetadata) (particleMap : PFParticleMap)
    (sliceId : Nat) (part : PFParticle) : Bool :=
  match rootMetadata particlesToMetadata particleMap part with
  | some metadata => !isClearCosmic metadata && decide (sliceIndex metadata = some sliceId)
  | none => false

/-- The root of the particle is not clear cosmic, has rounded slice index
`sliceId`, and `IsTarget` of its record is `target`. -/
def inBucket (self : LArPandoraExternalEventBuilding) (particlesToMetadata : PFParticleToMetadata)
    (particleMap : PFParticleMap) (sliceId : Nat) (target : Bool) (part : PFParticle) : Bool :=
  match rootMetadata particlesToMetadata particleMap part with
  | some metadata =>
    !isClearCosmic metadata && decide (sliceIndex metadata = some sliceId) &&
      decide (self.IsTarget metadata = target)
  | none => false

/-- The particles stored for a slice id in a hypothesis map, empty when the map
has no entry. -/
def bucket (hypotheses : List (Nat × PFParticleVector)) (sliceId : Nat) : PFParticleVector :=
  (mapFind hypotheses sliceId).getD []

/-- What the first loop of `CollectSlices` reads for one particle: nothing when
the root is clear cosmic, otherwise the slice id, the score and the value of
`IsTarget`. -/
def sliceEntry (self : LArPandoraExternalEventBuilding)
    (particlesToMetadata : PFParticleToMetadata) (particleMap : PFParticleMap)
    (part : PFParticle) : Except Error (Option (Nat × Float32 × Bool)) :=
  match GetParentPFParticle particleMap part with
  | .error e => .error e
  | .ok parent =>
    match mapFind particlesToMetadata parent with
    | none => .error .orphanedParticle
    | some metadata =>
      if isClearCosmic metadata then .ok none
      else
        match GetMetadataValue metadata "SliceIndex" with
        | .error e => .error e
        | .ok sliceValue =>
          match GetMetadataValue metadata self.m_scoreKey with
          | .error e => .error e
          | .ok targetScore => .ok (some (sliceValue.round.toUInt, targetScore, self.IsTarget metadata))

/-- What the first loop of `CollectSlices` records for a particle with the given
slice id, score and target flag. -/
def recordEntry (info : SliceInfo) (sliceId : Nat) (targetScore : Float32) (target : Bool)
    (part : PFParticle) : SliceInfo :=
  let info1 : SliceInfo :=
    if sliceId ∈ info.usedSliceIds then info
    else ⟨mapAssign info.targetScores sliceId targetScore, info.crHypotheses,
          info.targetHypotheses, info.usedSliceIds ++ [sliceId]⟩
  if target then
    ⟨info1.targetScores, info1.crHypotheses,
     pushBackAt info1.targetHypotheses sliceId part, info1.usedSliceIds⟩
  else
    ⟨info1.targetScores, pushBackAt info1.crHypotheses sliceId part,
     info1.targetHypotheses, info1.usedSliceIds⟩

/-- The Slice that the second loop of `CollectSlices` builds for a slice id whose
score is recorded. -/
def sliceFor (info : SliceInfo) (sliceId : Nat) : Slice :=
  ⟨(mapFind info.targetScores sliceId).getD Float32.nan, bucket info.targetHypotheses sliceId,
   bucket info.crHypotheses sliceId, false⟩

/-- The value stored under the score key in the record of the root of a
particle. -/
def rootScore (self : LArPandoraExternalEventBuilding)
    (particlesToMetadata : PFParticleToMetadata) (particleMap : PFParticleMap)
    (part : PFParticle) : Option Float32 :=
  match rootMetadata particlesToMetadata particleMap part with
  | some metadata => mapFind metadata.propertiesMap self.m_scoreKey
  | none => none

/-- The classifier changes at most the is-tagged-as-target flag of a Slice. -/
def SameHypotheses (before after : Slice) : Prop :=
  after.GetTargetHypothesis = before.GetTargetHypothesis ∧
  after.GetCosmicRayHypothesis = before.GetCosmicRayHypothesis

/-- The state of the first loop of `CollectSlices` is consistent: no slice id is
registered twice and every registered slice id has a score. -/
def SliceInfo.Consistent (info : SliceInfo) : Prop :=
  info.usedSliceIds.Nodup ∧ ∀ s ∈ info.usedSliceIds, ∃ sc, mapFind info.targetScores s = some sc

end LArPandoraExternalEventBuilding

/-! ## An example event -/

namespace Example

/-- The value `1.0`. -/
def one : Float32 := .finite 1 0

/-- The value `0.0`. -/
def zero : Float32 := .finite 0 0

/-- The single-precision value nearest to `0.8`, which is `13421773 / 2 ^ 24`. -/
def score : Float32 := .finite 13421773 24

/-- Particle A, a root whose record flags it clear cosmic. -/
def pA : PFParticle := ⟨0, 0, none⟩

/-- Particle B, a root whose record flags it as the neutrino, in slice 0. -/
def pB : PFParticle := ⟨1, 1, none⟩

/-- Particle C, a root whose record does not flag it as the neutrino, in slice 0. -/
def pC : PFParticle := ⟨2, 2, none⟩

/-- Particle D, a daughter of B. -/
def pD : PFParticle := ⟨3, 3, some 1⟩

/-- Particle E, a root whose record has a score and the slice index 3 only. -/
def pE : PFParticle := ⟨4, 4, none⟩

/-- Particle F, a root whose record has no slice index. -/
def pF : PFParticle := ⟨5, 5, none⟩

/-- Particle G, a root whose record has a slice index but no score. -/
def pG : PFParticle := ⟨6, 6, none⟩

/-- Particle H, a root whose record flags it clear cosmic and has the slice
index 7 and no score. -/
def pH : PFParticle := ⟨7, 7, none⟩

def mdA : PFParticleMetadata := ⟨[("IsClearCosmic", one)]⟩

def mdB : PFParticleMetadata :=
  ⟨[("IsClearCosmic", zero), ("IsNeutrino", one), ("NuScore", score), ("SliceIndex", zero)]⟩

def mdC : PFParticleMetadata :=
  ⟨[("IsClearCosmic", zero), ("IsNeutrino", zero), ("NuScore", score), ("SliceIndex", zero)]⟩

def mdD : PFParticleMetadata := ⟨[]⟩

def mdE : PFParticleMetadata := ⟨[("NuScore", one), ("SliceIndex", .finite 3 0)]⟩

def mdF : PFParticleMetadata := ⟨[("NuScore", score)]⟩

def mdG : PFParticleMetadata := ⟨[("SliceIndex", one)]⟩

def mdH : PFParticleMetadata := ⟨[("IsClearCosmic", one), ("SliceIndex", .finite 7 0)]⟩

/-- The module in neutrino mode. -/
def neutrinoMode : LArPandoraExternalEventBuilding := LArPandoraExternalEventBuilding.create none

def particlesToMetadata : PFParticleToMetadata :=
  [(pA, mdA), (pB, mdB), (pC, mdC), (pD, mdD), (pE, mdE), (pF, mdF), (pG, mdG), (pH, mdH)]

def particleMap : PFParticleMap :=
  [(0, pA), (1, pB), (2, pC), (3, pD), (4, pE), (5, pF), (6, pG), (7, pH)]

/-- A mapping in which particle C has no record. -/
def withoutC : PFParticleToMetadata := [(pA, mdA), (pB, mdB)]

/-- The particle map built from `withoutC`. -/
def withoutCMap : PFParticleMap := [(0, pA), (1, pB)]

/-- An input list in which the particle of slice 3 comes first and the slice
index 7 is carried by a clear-cosmic particle only. -/
def particles : PFParticleVector := [pE, pA, pB, pC, pD, pH]

/-- The Slice of slice index 0. -/
def slice0 : Slice := ⟨score, [pB, pD], [pC], false⟩

/-- The Slice of slice index 3. -/
def slice3 : Slice := ⟨one, [], [pE], false⟩

/-- The Slices of `particles`: slice 0, then slice 3. -/
def slices : SliceVector := [slice0, slice3]

/-- Particle I, a root in slice 0 whose record has the score one. -/
def pI : PFParticle := ⟨8, 8, none⟩

def mdI : PFParticleMetadata := ⟨[("NuScore", one), ("SliceIndex", zero)]⟩

/-- A mapping in which two roots of slice 0 record different scores. -/
def twoScores : PFParticleToMetadata := [(pB, mdB), (pI, mdI)]

/-- The particle map built from `twoScores`. -/
def twoScoresMap : PFParticleMap := [(1, pB), (8, pI)]

/-- A particle with the self-identifier of particle B under another key. -/
def pJ : PFParticle := ⟨9, 1, none⟩

/-- A mapping in which two particles have the same self-identifier. -/
def repeatedSelf : PFParticleToMetadata := [(pA, mdA), (pB, mdB), (pJ, mdD)]

/-- A particle whose self-identifier is `2 ^ 32 + 1`. -/
def pK : PFParticle := ⟨10, 4294967297, none⟩

/-- A mapping of two particles with the self-identifiers `1` and `2 ^ 32 + 1`. -/
def congruentSelf : PFParticleToMetadata := [(pB, mdB), (pK, mdD)]

/-- A classifier that tags the Slices of a positive score. -/
def tagPositive (slices : SliceVector) : SliceVector :=
  slices.map (fun sl =>
    ⟨sl.m_targetScore, sl.m_targetHypothesis, sl.m_crHypothesis,
      match sl.m_targetScore with
      | .finite m _ => decide (0 < m)
      | _ => false⟩)

end Example

namespace LArPandoraExternalEventBuilding

/-! ## Lemmas on the containers -/

theorem mapFind_mapAssign {K V : Type} [DecidableEq K] (m : List (K × V)) (k k' : K) (v : V) :
    mapFind (mapAssign m k v) k' = if k = k' then some v else mapFind m k' := by
  induction m with
  | nil => simp [mapAssign, mapFind]
  | cons hd tl ih =>
    obtain ⟨a, b⟩ := hd
    by_cases h1 : a = k
    · subst h1
      by_cases h2 : a = k' <;> simp [mapAssign, mapFind, h2]
    · by_cases h2 : k = k'
      · subst h2
        simp [mapAssign, mapFind, h1, ih]
      · by_cases h3 : a = k'
        · subst h3
          simp [mapAssign, mapFind, h1, h2]
        · simp [mapAssign, mapFind, h1, h2, h3, ih]

theorem bucket_pushBackAt (hypotheses : List (Nat × PFParticleVector)) (s s' : Nat)
    (part : PFParticle) :
    bucket (pushBackAt hypotheses s part) s' =
      if s = s' then bucket hypotheses s ++ [part] else bucket hypotheses s' := by
  unfold bucket pushBackAt
  rw [mapFind_mapAssign]
  split <;> simp

/-! ## Lemmas on the collectors -/

theorem collectSlicesStep_eq (self : LArPandoraExternalEventBuilding)
    (p2m : PFParticleToMetadata) (pm : PFParticleMap) (info : SliceInfo) (part : PFParticle) :
    collectSlicesStep self p2m pm info part =
      match sliceEntry self p2m pm part with
      | .error e => .error e
      | .ok none => .ok info
      | .ok (some (s, sc, t)) => .ok (recordEntry info s sc t part) := by
  unfold collectSlicesStep sliceEntry isClearCosmic recordEntry GetMetadataValue
  cases hr : GetParentPFParticle pm part with
  | error e => rfl
  | ok parent =>
    dsimp only
    cases hm : mapFind p2m parent with
    | none => rfl
    | some md =>
      dsimp only
      cases h2 : mapFind md.propertiesMap "SliceIndex" <;>
      cases h3 : mapFind md.propertiesMap self.m_scoreKey <;>
      cases h4 : self.IsTarget md <;>
      cases h1 : mapFind md.propertiesMap "IsClearCosmic" <;>
      simp only [hm, h1, h2, h3, h4] <;>
      split <;> simp_all

/-- A particle that the first loop skips belongs to no bucket. -/
theorem sliceEntry_none (self : LArPandoraExternalEventBuilding)
    (p2m : PFParticleToMetadata) (pm : PFParticleMap) (part : PFParticle)
    (h : sliceEntry self p2m pm part = .ok none) :
    rootIsClearCosmic p2m pm part = true ∧
    (∀ s, inSlice p2m pm s part = false) ∧ ∀ s t, inBucket self p2m pm s t part = false := by
  unfold sliceEntry at h
  unfold rootIsClearCosmic inSlice inBucket rootMetadata
  cases hr : GetParentPFParticle pm part with
  | error e => simp [hr] at h
  | ok parent =>
    simp only [hr] at h ⊢
    cases hm : mapFind p2m parent with
    | none => simp [hm] at h
    | some md =>
      simp only [hm] at h ⊢
      cases hc : isClearCosmic md with
      | true => simp
      | false =>
        simp only [hc] at h
        unfold GetMetadataValue at h
        cases h2 : mapFind md.propertiesMap "SliceIndex" with
        | none => simp [h2] at h
        | some sv =>
          cases h3 : mapFind md.propertiesMap self.m_scoreKey with
          | none => simp [h2, h3] at h
          | some sc => simp [h2, h3] at h

/-- A particle that the first loop records belongs to exactly the bucket it is
recorded in. -/
theorem sliceEntry_some (self : LArPandoraExternalEventBuilding)
    (p2m : PFParticleToMetadata) (pm : PFParticleMap) (part : PFParticle)
    (s : Nat) (sc : Float32) (t : Bool)
    (h : sliceEntry self p2m pm part = .ok (some (s, sc, t))) :
    rootIsClearCosmic p2m pm part = false ∧
    (∀ s', inSlice p2m pm s' part = decide (s = s')) ∧
    ∀ s' t', inBucket self p2m pm s' t' part = (decide (s = s') && decide (t = t')) := by
  unfold sliceEntry at h
  unfold rootIsClearCosmic inSlice inBucket rootMetadata
  cases hr : GetParentPFParticle pm part with
  | error e => simp [hr] at h
  | ok parent =>
    simp only [hr] at h ⊢
    cases hm : mapFind p2m parent with
    | none => simp [hm] at h
    | some md =>
      simp only [hm] at h ⊢
      cases hc : isClearCosmic md with
      | true => simp [hc] at h
      | false =>
        simp only [hc] at h
        unfold GetMetadataValue at h
        cases h2 : mapFind md.propertiesMap "SliceIndex" with
        | none => simp [h2] at h
        | some sv =>
          cases h3 : mapFind md.propertiesMap self.m_scoreKey with
          | none => simp [h2, h3] at h
          | some sc' =>
            simp [h2, h3] at h
            obtain ⟨h4, h5, h6⟩ := h
            simp [sliceIndex, h2, h4, h6]

theorem recordEntry_target (info : SliceInfo) (s : Nat) (sc : Float32) (t : Bool)
    (part : PFParticle) (s' : Nat) :
    bucket (recordEntry info s sc t part).targetHypotheses s' =
      bucket info.targetHypotheses s' ++ (if s = s' ∧ t = true then [part] else []) := by
  unfold recordEntry
  rcases eq_or_ne s s' with rfl | hs
  · by_cases hu : s ∈ info.usedSliceIds <;> cases t <;> simp [hu, bucket_pushBackAt]
  · by_cases hu : s ∈ info.usedSliceIds <;> cases t <;> simp [hu, hs, bucket_pushBackAt]

theorem recordEntry_cr (info : SliceInfo) (s : Nat) (sc : Float32) (t : Bool)
    (part : PFParticle) (s' : Nat) :
    bucket (recordEntry info s sc t part).crHypotheses s' =
      bucket info.crHypotheses s' ++ (if s = s' ∧ t = false then [part] else []) := by
  unfold recordEntry
  rcases eq_or_ne s s' with rfl | hs
  · by_cases hu : s ∈ info.usedSliceIds <;> cases t <;> simp [hu, bucket_pushBackAt]
  · by_cases hu : s ∈ info.usedSliceIds <;> cases t <;> simp [hu, hs, bucket_pushBackAt]

theorem recordEntry_used (info : SliceInfo) (s : Nat) (sc : Float32) (t : Bool)
    (part : PFParticle) :
    (recordEntry info s sc t part).usedSliceIds =
      if s ∈ info.usedSliceIds then info.usedSliceIds else info.usedSliceIds ++ [s] := by
  unfold recordEntry
  by_cases hu : s ∈ info.usedSliceIds <;> cases t <;> simp [hu]

theorem recordEntry_scores (info : SliceInfo) (s : Nat) (sc : Float32) (t : Bool)
    (part : PFParticle) :
    (recordEntry info s sc t part).targetScores =
      if s ∈ info.usedSliceIds then info.targetScores else mapAssign info.targetScores s sc := by
  unfold recordEntry
  by_cases hu : s ∈ info.usedSliceIds <;> cases t <;> simp [hu]

theorem recordEntry_consistent (info : SliceInfo) (s : Nat) (sc : Float32) (t : Bool)
    (part : PFParticle) (h : info.Consistent) : (recordEntry info s sc t part).Consistent := by
  obtain ⟨h1, h2⟩ := h
  unfold SliceInfo.Consistent
  rw [recordEntry_used, recordEntry_scores]
  by_cases hu : s ∈ info.usedSliceIds
  · simp only [hu, if_true]
    exact ⟨h1, h2⟩
  · simp only [hu, if_false]
    refine ⟨?_, ?_⟩
    · rw [List.nodup_append]
      refine ⟨h1, List.nodup_singleton s, ?_⟩
      intro a ha hb
      simp only [List.mem_singleton] at hb
      subst hb
      exact hu ha
    · intro s' hs'
      rw [mapFind_mapAssign]
      by_cases hss : s = s'
      · exact ⟨sc, by simp [hss]⟩
      · simp only [hss, if_false]
        rw [List.mem_append, List.mem_singleton] at hs'
        rcases hs' with hs' | hs'
        · exact h2 s' hs'
        · exact absurd hs'.symm hss

/-- The effect of the first loop of `CollectSlices` when it completes. -/
theorem collectSlicesLoop_ok (self : LArPandoraExternalEventBuilding)
    (p2m : PFParticleToMetadata) (pm : PFParticleMap) (l : PFParticleVector) :
    ∀ info info', collectSlicesLoop self p2m pm l info = .ok info' →
      (∀ s, bucket info'.targetHypotheses s =
        bucket info.targetHypotheses s ++ l.filter (inBucket self p2m pm s true)) ∧
      (∀ s, bucket info'.crHypotheses s =
        bucket info.crHypotheses s ++ l.filter (inBucket self p2m pm s false)) ∧
      (∀ s, s ∈ info'.usedSliceIds ↔
        s ∈ info.usedSliceIds ∨ ∃ p ∈ l, inSlice p2m pm s p = true) ∧
      (info.Consistent → info'.Consistent) := by
  induction l with
  | nil =>
    intro info info' h
    simp only [collectSlicesLoop, Except.ok.injEq] at h
    subst h
    simp
  | cons part rest ih =>
    intro info info' h
    simp only [collectSlicesLoop] at h
    rw [collectSlicesStep_eq] at h
    cases he : sliceEntry self p2m pm part with
    | error e => simp [he] at h
    | ok o =>
      cases o with
      | none =>
        simp only [he] at h
        obtain ⟨_, hs, hb⟩ := sliceEntry_none self p2m pm part he
        obtain ⟨i1, i2, i3, i4⟩ := ih info info' h
        refine ⟨?_, ?_, ?_, i4⟩
        · intro s
          rw [i1 s, List.filter_cons, hb s true]
          simp
        · intro s
          rw [i2 s, List.filter_cons, hb s false]
          simp
        · intro s
          rw [i3 s]
          simp [hs s]
      | some val =>
        obtain ⟨s0, sc, t⟩ := val
        simp only [he] at h
        obtain ⟨_, hs, hb⟩ := sliceEntry_some self p2m pm part s0 sc t he
        obtain ⟨i1, i2, i3, i4⟩ := ih (recordEntry info s0 sc t part) info' h
        refine ⟨?_, ?_, ?_, fun hc => i4 (recordEntry_consistent info s0 sc t part hc)⟩
        · intro s
          rw [i1 s, recordEntry_target, List.filter_cons, hb s true]
          by_cases h1 : s0 = s <;> cases t <;> simp [h1]
        · intro s
          rw [i2 s, recordEntry_cr, List.filter_cons, hb s false]
          by_cases h1 : s0 = s <;> cases t <;> simp [h1]
        · intro s
          rw [i3 s, recordEntry_used]
          by_cases hu : s0 ∈ info.usedSliceIds
          · simp only [hu, if_true, List.mem_cons, exists_eq_or_imp, hs s, decide_eq_true_eq]
            constructor
            · rintro (h1 | h1)
              · exact Or.inl h1
              · exact Or.inr (Or.inr h1)
            · rintro (h1 | h1 | h1)
              · exact Or.inl h1
              · exact Or.inl (h1 ▸ hu)
              · exact Or.inr h1
          · simp only [hu, if_false, List.mem_append, List.mem_singleton]
            simp only [List.mem_cons, exists_eq_or_imp, hs s, decide_eq_true_eq]
            constructor
            · rintro ((h1 | h1) | h1)
              · exact Or.inl h1
              · exact Or.inr (Or.inl h1.symm)
              · exact Or.inr (Or.inr h1)
            · rintro (h1 | h1 | h1)
              · exact Or.inl (Or.inl h1)
              · exact Or.inl (Or.inr h1.symm)
              · exact Or.inr h1

theorem rootMetadata_isSome_iff (p2m : PFParticleToMetadata) (pm : PFParticleMap)
    (part : PFParticle) :
    (rootMetadata p2m pm part).isSome = true ↔
      ∃ parent metadata, GetParentPFParticle pm part = .ok parent ∧
        mapFind p2m parent = some metadata := by
  unfold rootMetadata
  cases hr : GetParentPFParticle pm part with
  | error e => simp
  | ok parent =>
    cases hm : mapFind p2m parent with
    | none => simp [hm]
    | some md => simp [hm]

theorem collectClearCosmicRaysStep_eq (p2m : PFParticleToMetadata) (pm : PFParticleMap)
    (cc : PFParticleVector) (part : PFParticle) :
    collectClearCosmicRaysStep p2m pm cc part =
      match GetParentPFParticle pm part with
      | .error e => .error e
      | .ok parent =>
        match mapFind p2m parent with
        | none => .error .orphanedParticle
        | some md => .ok (cc ++ if isClearCosmic md then [part] else []) := by
  unfold collectClearCosmicRaysStep isClearCosmic GetMetadataValue
  cases hr : GetParentPFParticle pm part with
  | error e => rfl
  | ok parent =>
    dsimp only
    cases hm : mapFind p2m parent with
    | none => rfl
    | some md =>
      dsimp only
      cases h1 : mapFind md.propertiesMap "IsClearCosmic" with
      | none => simp
      | some v => cases h0 : v.round.toBool <;> simp [h0]

/-- The effect of `CollectClearCosmicRays` when it completes. -/
theorem CollectClearCosmicRays_of_ok (p2m : PFParticleToMetadata) (pm : PFParticleMap)
    (l : PFParticleVector) :
    ∀ cc out, CollectClearCosmicRays p2m pm l cc = .ok out →
      out = cc ++ l.filter (rootIsClearCosmic p2m pm) ∧
      ∀ p ∈ l, (rootMetadata p2m pm p).isSome = true := by
  induction l with
  | nil =>
    intro cc out h
    simp only [CollectClearCosmicRays, Except.ok.injEq] at h
    simp [h]
  | cons part rest ih =>
    intro cc out h
    simp only [CollectClearCosmicRays] at h
    rw [collectClearCosmicRaysStep_eq] at h
    cases hr : GetParentPFParticle pm part with
    | error e => simp [hr] at h
    | ok parent =>
      cases hm : mapFind p2m parent with
      | none => simp [hr, hm] at h
      | some md =>
        simp only [hr, hm] at h
        obtain ⟨h1, h2⟩ := ih _ _ h
        have hmd : rootMetadata p2m pm part = some md := by simp [rootMetadata, hr, hm]
        refine ⟨?_, ?_⟩
        · rw [h1, List.filter_cons]
          cases hc : isClearCosmic md <;> simp [rootIsClearCosmic, hmd, hc]
        · intro p hp
          rcases List.mem_cons.1 hp with rfl | hp
          · simp [hmd]
          · exact h2 p hp

/-- The function `CollectClearCosmicRays` completes when every root has a
metadata record. -/
theorem CollectClearCosmicRays_ok (p2m : PFParticleToMetadata) (pm : PFParticleMap)
    (l : PFParticleVector) :
    ∀ cc, (∀ p ∈ l, (rootMetadata p2m pm p).isSome = true) →
      ∃ out, CollectClearCosmicRays p2m pm l cc = .ok out := by
  induction l with
  | nil =>
    intro cc _
    exact ⟨cc, rfl⟩
  | cons part rest ih =>
    intro cc h
    have hp := h part (List.mem_cons_self _ _)
    rw [rootMetadata_isSome_iff] at hp
    obtain ⟨parent, md, hr, hm⟩ := hp
    simp only [CollectClearCosmicRays]
    rw [collectClearCosmicRaysStep_eq]
    simp only [hr, hm]
    exact ih _ (fun p hp => h p (List.mem_cons_of_mem _ hp))

/-- The first loop of `CollectSlices` fails exactly with the failure of the first
particle whose entry cannot be read. -/
theorem collectSlicesLoop_error (self : LArPandoraExternalEventBuilding)
    (p2m : PFParticleToMetadata) (pm : PFParticleMap) (l : PFParticleVector) :
    ∀ info e, collectSlicesLoop self p2m pm l info = .error e →
      ∃ p ∈ l, sliceEntry self p2m pm p = .error e := by
  induction l with
  | nil =>
    intro info e h
    simp [collectSlicesLoop] at h
  | cons part rest ih =>
    intro info e h
    simp only [collectSlicesLoop] at h
    rw [collectSlicesStep_eq] at h
    cases he : sliceEntry self p2m pm part with
    | error e' =>
      simp only [he, Except.error.injEq] at h
      exact ⟨part, List.mem_cons_self _ _, by rw [he, h]⟩
    | ok o =>
      cases o with
      | none =>
        simp only [he] at h
        obtain ⟨p, hp, hpe⟩ := ih _ _ h
        exact ⟨p, List.mem_cons_of_mem _ hp, hpe⟩
      | some val =>
        obtain ⟨s0, sc, t⟩ := val
        simp only [he] at h
        obtain ⟨p, hp, hpe⟩ := ih _ _ h
        exact ⟨p, List.mem_cons_of_mem _ hp, hpe⟩

/-- The first loop of `CollectSlices` completes only when every entry can be
read. -/
theorem collectSlicesLoop_entries (self : LArPandoraExternalEventBuilding)
    (p2m : PFParticleToMetadata) (pm : PFParticleMap) (l : PFParticleVector) :
    ∀ info info', collectSlicesLoop self p2m pm l info = .ok info' →
      ∀ p ∈ l, ∃ o, sliceEntry self p2m pm p = .ok o := by
  induction l with
  | nil =>
    intro info info' _ p hp
    simp at hp
  | cons part rest ih =>
    intro info info' h p hp
    simp only [collectSlicesLoop] at h
    rw [collectSlicesStep_eq] at h
    cases he : sliceEntry self p2m pm part with
    | error e' => simp [he] at h
    | ok o =>
      rcases List.mem_cons.1 hp with rfl | hp
      · exact ⟨o, he⟩
      · cases o with
        | none =>
          simp only [he] at h
          exact ih _ _ h p hp
        | some val =>
          obtain ⟨s0, sc, t⟩ := val
          simp only [he] at h
          exact ih _ _ h p hp

/-- The second loop of `CollectSlices` completes when every slice id has a
score, and builds the Slices in the order of the ids. -/
theorem produceSlices_ok (info : SliceInfo) (ids : List Nat) :
    ∀ slices, (∀ s ∈ ids, ∃ sc, mapFind info.targetScores s = some sc) →
      produceSlices info ids slices = .ok (slices ++ ids.map (sliceFor info)) := by
  induction ids with
  | nil =>
    intro slices _
    simp [produceSlices]
  | cons s rest ih =>
    intro slices h
    obtain ⟨sc, hsc⟩ := h s (List.mem_cons_self _ _)
    simp only [produceSlices, hsc]
    rw [ih _ (fun s' hs' => h s' (List.mem_cons_of_mem _ hs'))]
    simp [sliceFor, hsc, bucket]

theorem consistent_init : SliceInfo.Consistent ⟨[], [], [], []⟩ := by
  simp [SliceInfo.Consistent]

/-- The two outcomes of `CollectSlices`: the first loop completes and the Slices
are built for the sorted slice ids, or the first loop fails with the same
exception. -/
theorem CollectSlices_cases (self : LArPandoraExternalEventBuilding)
    (all : PFParticleVector) (p2m : PFParticleToMetadata) (pm : PFParticleMap)
    (slices : SliceVector) :
    (∃ info, collectSlicesLoop self p2m pm all ⟨[], [], [], []⟩ = .ok info ∧
      CollectSlices self all p2m pm slices =
        .ok (slices ++ (info.usedSliceIds.insertionSort (· ≤ ·)).map (sliceFor info))) ∨
    (∃ e, collectSlicesLoop self p2m pm all ⟨[], [], [], []⟩ = .error e ∧
      CollectSlices self all p2m pm slices = .error e) := by
  unfold CollectSlices
  cases hl : collectSlicesLoop self p2m pm all ⟨[], [], [], []⟩ with
  | error e => exact Or.inr ⟨e, rfl, rfl⟩
  | ok info =>
    refine Or.inl ⟨info, rfl, ?_⟩
    obtain ⟨_, _, _, hc⟩ := collectSlicesLoop_ok self p2m pm all _ _ hl
    obtain ⟨_, hs⟩ := hc consistent_init
    dsimp only
    apply produceSlices_ok
    intro s hs'
    exact hs s ((List.perm_insertionSort _ _).mem_iff.1 hs')

/-- The Slices returned by `CollectSlices`: one per slice id of a particle that is
not clear cosmic, in strictly ascending order of the id, each bucket being the
input list filtered to the particles of that slice and hypothesis. -/
theorem CollectSlices_of_ok (self : LArPandoraExternalEventBuilding)
    (all : PFParticleVector) (p2m : PFParticleToMetadata) (pm : PFParticleMap)
    (slices : SliceVector) (h : CollectSlices self all p2m pm [] = .ok slices) :
    ∃ ids : List Nat, ids.Sorted (· < ·) ∧
      (∀ s, s ∈ ids ↔ ∃ p ∈ all, inSlice p2m pm s p = true) ∧
      List.Forall₂ (fun s sl =>
        sl.GetTargetHypothesis = all.filter (inBucket self p2m pm s true) ∧
        sl.GetCosmicRayHypothesis = all.filter (inBucket self p2m pm s false) ∧
        sl.IsTaggedAsTarget = false) ids slices := by
  rcases CollectSlices_cases self all p2m pm [] with ⟨info, hl, hc⟩ | ⟨e, _, hc⟩
  · rw [hc] at h
    simp only [List.nil_append, Except.ok.injEq] at h
    subst h
    obtain ⟨i1, i2, i3, i4⟩ := collectSlicesLoop_ok self p2m pm all _ _ hl
    obtain ⟨hnd, _⟩ := i4 consistent_init
    have hperm := List.perm_insertionSort (· ≤ ·) info.usedSliceIds
    refine ⟨info.usedSliceIds.insertionSort (· ≤ ·), ?_, ?_, ?_⟩
    · exact (List.sorted_insertionSort (· ≤ ·) _).lt_of_le (hperm.nodup_iff.2 hnd)
    · intro s
      rw [hperm.mem_iff, i3 s]
      simp
    · rw [List.forall₂_map_right_iff, List.forall₂_same]
      intro s _
      refine ⟨?_, ?_, rfl⟩
      · show bucket info.targetHypotheses s = _
        rw [i1 s]
        simp [bucket, mapFind]
      · show bucket info.crHypotheses s = _
        rw [i2 s]
        simp [bucket, mapFind]
  · rw [hc] at h
    simp at h

theorem inBucket_imp_inSlice (self : LArPandoraExternalEventBuilding)
    (p2m : PFParticleToMetadata) (pm : PFParticleMap) (s : Nat) (t : Bool) (p : PFParticle)
    (h : inBucket self p2m pm s t p = true) :
    inSlice p2m pm s p = true ∧ rootIsClearCosmic p2m pm p = false := by
  unfold inBucket at h
  unfold inSlice rootIsClearCosmic
  cases hm : rootMetadata p2m pm p with
  | none => simp [hm] at h
  | some md =>
    simp only [hm, Bool.and_eq_true, Bool.not_eq_true', decide_eq_true_eq] at h ⊢
    exact ⟨⟨h.1.1, h.1.2⟩, h.1.1⟩

theorem inSlice_imp_inBucket (self : LArPandoraExternalEventBuilding)
    (p2m : PFParticleToMetadata) (pm : PFParticleMap) (s : Nat) (p : PFParticle)
    (h : inSlice p2m pm s p = true) :
    inBucket self p2m pm s true p = true ∨ inBucket self p2m pm s false p = true := by
  unfold inSlice at h
  unfold inBucket
  cases hm : rootMetadata p2m pm p with
  | none => simp [hm] at h
  | some md =>
    simp only [hm, Bool.and_eq_true, Bool.not_eq_true', decide_eq_true_eq] at h ⊢
    cases ht : self.IsTarget md
    · exact Or.inr ⟨h, rfl⟩
    · exact Or.inl ⟨h, rfl⟩

/-! ## Lemmas on the consolidation -/

theorem mem_collectSelected (slices : SliceVector) :
    ∀ (acc : PFParticleVector) (p : PFParticle), p ∈ collectSelected slices acc ↔
      p ∈ acc ∨ ∃ sl ∈ slices,
        p ∈ (if sl.IsTaggedAsTarget then sl.GetTargetHypothesis else sl.GetCosmicRayHypothesis) := by
  induction slices with
  | nil =>
    intro acc p
    simp [collectSelected]
  | cons sl rest ih =>
    intro acc p
    simp only [collectSelected]
    rw [ih, List.mem_append]
    simp only [List.mem_cons, exists_eq_or_imp]
    tauto

theorem retainCollected_eq (collected : PFParticleVector) (l : PFParticleVector) :
    ∀ acc, retainCollected collected l acc = acc ++ l.filter (fun p => decide (p ∈ collected)) := by
  induction l with
  | nil =>
    intro acc
    simp [retainCollected]
  | cons part rest ih =>
    intro acc
    simp only [retainCollected]
    rw [ih, List.filter_cons]
    by_cases h : part ∈ collected <;> simp [h]

theorem CollectConsolidatedParticles_eq (all clearCosmics : PFParticleVector)
    (slices : SliceVector) :
    CollectConsolidatedParticles all clearCosmics slices [] =
      all.filter (fun p => decide (p ∈ clearCosmics ∨ ∃ sl ∈ slices,
        p ∈ (if sl.IsTaggedAsTarget then sl.GetTargetHypothesis
             else sl.GetCosmicRayHypothesis))) := by
  unfold CollectConsolidatedParticles
  rw [retainCollected_eq, List.nil_append]
  apply List.filter_congr
  intro p _
  rw [decide_eq_decide, mem_collectSelected, List.nil_append]

/-! ## Further lemmas -/

theorem round_toBool_finite (m : Int) (k : Nat) :
    (Float32.finite m k).round.toBool = true ↔ 2 ^ k ≤ 2 * m.natAbs := by
  have hd : 0 < 2 ^ k := Nat.two_pow_pos k
  simp only [Float32.round, Float32.toBool, decide_eq_true_eq, ne_eq, mul_eq_zero, not_or,
    Int.sign_eq_zero_iff_zero, Int.natCast_eq_zero]
  rw [Nat.div_eq_zero_iff (by omega)]
  constructor
  · rintro ⟨_, h⟩
    omega
  · intro h
    refine ⟨?_, by omega⟩
    intro hm
    subst hm
    simp at h

theorem rootsHaveMetadata_iff (p2m : PFParticleToMetadata) (pm : PFParticleMap)
    (all : PFParticleVector) :
    RootsHaveMetadata p2m pm all ↔ ∀ p ∈ all, (rootMetadata p2m pm p).isSome = true := by
  unfold RootsHaveMetadata
  constructor
  · intro h p hp
    exact (rootMetadata_isSome_iff p2m pm p).2 (h p hp)
  · intro h p hp
    exact (rootMetadata_isSome_iff p2m pm p).1 (h p hp)

theorem forall₂_exists_right {α β : Type} {R : α → β → Prop} {l₁ : List α} {l₂ : List β}
    (h : List.Forall₂ R l₁ l₂) : ∀ a ∈ l₁, ∃ b ∈ l₂, R a b := by
  induction h with
  | nil =>
    intro a ha
    simp at ha
  | cons hab _ ih =>
    intro a ha
    rcases List.mem_cons.1 ha with rfl | ha
    · exact ⟨_, List.mem_cons_self _ _, hab⟩
    · obtain ⟨b, hb, hr⟩ := ih a ha
      exact ⟨b, List.mem_cons_of_mem _ hb, hr⟩

theorem forall₂_exists_left {α β : Type} {R : α → β → Prop} {l₁ : List α} {l₂ : List β}
    (h : List.Forall₂ R l₁ l₂) : ∀ b ∈ l₂, ∃ a ∈ l₁, R a b := by
  induction h with
  | nil =>
    intro b hb
    simp at hb
  | cons hab _ ih =>
    intro b hb
    rcases List.mem_cons.1 hb with rfl | hb
    · exact ⟨_, List.mem_cons_self _ _, hab⟩
    · obtain ⟨a, ha, hr⟩ := ih b hb
      exact ⟨a, List.mem_cons_of_mem _ ha, hr⟩

theorem rootIsClearCosmic_not_inSlice (p2m : PFParticleToMetadata) (pm : PFParticleMap)
    (s : Nat) (p : PFParticle) (h : rootIsClearCosmic p2m pm p = true) :
    inSlice p2m pm s p = false := by
  unfold rootIsClearCosmic at h
  unfold inSlice
  cases hm : rootMetadata p2m pm p with
  | none => rfl
  | some md =>
    simp only [hm] at h
    simp [h]

/-- The entries of all particles can be read when `CollectSlices` completes. -/
theorem CollectSlices_entries (self : LArPandoraExternalEventBuilding)
    (all : PFParticleVector) (p2m : PFParticleToMetadata) (pm : PFParticleMap)
    (slices0 slices : SliceVector) (h : CollectSlices self all p2m pm slices0 = .ok slices) :
    ∀ p ∈ all, ∃ o, sliceEntry self p2m pm p = .ok o := by
  rcases CollectSlices_cases self all p2m pm slices0 with ⟨info, hl, _⟩ | ⟨e, _, hc⟩
  · exact collectSlicesLoop_entries self p2m pm all _ _ hl
  · rw [hc] at h
    simp at h

/-- The function `CollectSlices` fails exactly when the entry of some particle
cannot be read, and then with the exception of such an entry. -/
theorem CollectSlices_error_iff (self : LArPandoraExternalEventBuilding)
    (all : PFParticleVector) (p2m : PFParticleToMetadata) (pm : PFParticleMap)
    (slices0 : SliceVector) :
    ((∃ e, CollectSlices self all p2m pm slices0 = .error e) ↔
      ∃ p ∈ all, ∃ e, sliceEntry self p2m pm p = .error e) ∧
    (∀ e, CollectSlices self all p2m pm slices0 = .error e →
      ∃ p ∈ all, sliceEntry self p2m pm p = .error e) := by
  have hfwd : ∀ e, CollectSlices self all p2m pm slices0 = .error e →
      ∃ p ∈ all, sliceEntry self p2m pm p = .error e := by
    intro e h
    rcases CollectSlices_cases self all p2m pm slices0 with ⟨info, _, hc⟩ | ⟨e', hl, hc⟩
    · rw [hc] at h
      simp at h
    · rw [hc] at h
      simp only [Except.error.injEq] at h
      subst h
      exact collectSlicesLoop_error self p2m pm all _ _ hl
  refine ⟨⟨?_, ?_⟩, hfwd⟩
  · rintro ⟨e, h⟩
    obtain ⟨p, hp, hpe⟩ := hfwd e h
    exact ⟨p, hp, e, hpe⟩
  · rintro ⟨p, hp, e, hpe⟩
    cases hc : CollectSlices self all p2m pm slices0 with
    | error e' => exact ⟨e', rfl⟩
    | ok slices =>
      obtain ⟨o, ho⟩ := CollectSlices_entries self all p2m pm slices0 slices hc p hp
      rw [ho] at hpe
      simp at hpe

theorem getRootAux_error (pm : PFParticleMap) :
    ∀ (fuel : Nat) (p : PFParticle) (e : Error), getRootAux pm fuel p = .error e →
      e = .malformedHierarchy := by
  intro fuel
  induction fuel with
  | zero =>
    intro p e h
    simp only [getRootAux, Except.error.injEq] at h
    exact h.symm
  | succ n ih =>
    intro p e h
    simp only [getRootAux] at h
    cases hp : p.parent with
    | none => simp [hp] at h
    | some pid =>
      simp only [hp] at h
      cases hf : mapFind pm (narrowToInt pid) with
      | none =>
        simp only [hf, Except.error.injEq] at h
        exact h.symm
      | some q =>
        simp only [hf] at h
        exact ih q e h

/-- The entry of a particle whose root has a record. -/
theorem sliceEntry_of_rootMetadata (self : LArPandoraExternalEventBuilding)
    (p2m : PFParticleToMetadata) (pm : PFParticleMap) (p : PFParticle) (md : PFParticleMetadata)
    (h : rootMetadata p2m pm p = some md) :
    sliceEntry self p2m pm p =
      if isClearCosmic md then .ok none
      else
        match mapFind md.propertiesMap "SliceIndex" with
        | none => .error (.missingKey "SliceIndex")
        | some sliceValue =>
          match mapFind md.propertiesMap self.m_scoreKey with
          | none => .error (.missingKey self.m_scoreKey)
          | some targetScore =>
            .ok (some (sliceValue.round.toUInt, targetScore, self.IsTarget md)) := by
  unfold rootMetadata at h
  unfold sliceEntry GetMetadataValue
  cases hr : GetParentPFParticle pm p with
  | error e => simp [hr] at h
  | ok parent =>
    simp only [hr] at h
    simp only [h]
    cases hc : isClearCosmic md
    · cases h2 : mapFind md.propertiesMap "SliceIndex" with
      | none => simp
      | some sv => cases h3 : mapFind md.propertiesMap self.m_scoreKey <;> simp
    · simp

/-- The exceptions that reading an entry can throw. -/
theorem sliceEntry_error (self : LArPandoraExternalEventBuilding)
    (p2m : PFParticleToMetadata) (pm : PFParticleMap) (p : PFParticle) (e : Error)
    (h : sliceEntry self p2m pm p = .error e) :
    e = .malformedHierarchy ∨ e = .orphanedParticle ∨ ∃ key, e = .missingKey key := by
  unfold sliceEntry GetMetadataValue at h
  cases hr : GetParentPFParticle pm p with
  | error e' =>
    simp only [hr, Except.error.injEq] at h
    subst h
    exact Or.inl (getRootAux_error pm _ p e' hr)
  | ok parent =>
    simp only [hr] at h
    cases hm : mapFind p2m parent with
    | none =>
      simp only [hm, Except.error.injEq] at h
      exact Or.inr (Or.inl h.symm)
    | some md =>
      simp only [hm] at h
      cases hc : isClearCosmic md with
      | true => simp [hc] at h
      | false =>
        cases h2 : mapFind md.propertiesMap "SliceIndex" with
        | none =>
          simp [hc, h2] at h
          exact Or.inr (Or.inr ⟨_, h.symm⟩)
        | some sv =>
          cases h3 : mapFind md.propertiesMap self.m_scoreKey with
          | none =>
            simp [hc, h2, h3] at h
            exact Or.inr (Or.inr ⟨_, h.symm⟩)
          | some sc => simp [hc, h2, h3] at h

/-! ## Lemmas on the scores -/

/-- A particle that the first loop records has the recorded score in the record
of its root. -/
theorem sliceEntry_some_score (self : LArPandoraExternalEventBuilding)
    (p2m : PFParticleToMetadata) (pm : PFParticleMap) (part : PFParticle)
    (s : Nat) (sc : Float32) (t : Bool)
    (h : sliceEntry self p2m pm part = .ok (some (s, sc, t))) :
    rootScore self p2m pm part = some sc := by
  unfold sliceEntry at h
  unfold rootScore rootMetadata
  cases hr : GetParentPFParticle pm part with
  | error e => simp [hr] at h
  | ok parent =>
    simp only [hr] at h ⊢
    cases hm : mapFind p2m parent with
    | none => simp [hm] at h
    | some md =>
      simp only [hm] at h ⊢
      cases hc : isClearCosmic md with
      | true => simp [hc] at h
      | false =>
        simp only [hc] at h
        unfold GetMetadataValue at h
        cases h2 : mapFind md.propertiesMap "SliceIndex" with
        | none => simp [h2] at h
        | some sv =>
          cases h3 : mapFind md.propertiesMap self.m_scoreKey with
          | none => simp [h2, h3] at h
          | some sc' =>
            simp [h2, h3] at h
            rw [h.2.1]

/-- The scores after the first loop of `CollectSlices`: the score of a slice id
that is already registered is kept, and a slice id that is not yet registered
gets the score of the first particle of that slice. -/
theorem collectSlicesLoop_scores (self : LArPandoraExternalEventBuilding)
    (p2m : PFParticleToMetadata) (pm : PFParticleMap) (l : PFParticleVector) :
    ∀ info info', collectSlicesLoop self p2m pm l info = .ok info' → ∀ s,
      (s ∈ info.usedSliceIds → mapFind info'.targetScores s = mapFind info.targetScores s) ∧
      (s ∉ info.usedSliceIds → mapFind info'.targetScores s =
        match l.find? (inSlice p2m pm s) with
        | some p => rootScore self p2m pm p
        | none => mapFind info.targetScores s) := by
  induction l with
  | nil =>
    intro info info' h s
    simp only [collectSlicesLoop, Except.ok.injEq] at h
    subst h
    simp
  | cons part rest ih =>
    intro info info' h s
    simp only [collectSlicesLoop] at h
    rw [collectSlicesStep_eq] at h
    cases he : sliceEntry self p2m pm part with
    | error e => simp [he] at h
    | ok o =>
      cases o with
      | none =>
        simp only [he] at h
        obtain ⟨_, hs, _⟩ := sliceEntry_none self p2m pm part he
        obtain ⟨i1, i2⟩ := ih info info' h s
        refine ⟨i1, ?_⟩
        intro hu
        rw [i2 hu, List.find?_cons, hs s]
      | some val =>
        obtain ⟨s0, sc, t⟩ := val
        simp only [he] at h
        obtain ⟨_, hs, _⟩ := sliceEntry_some self p2m pm part s0 sc t he
        have hsc := sliceEntry_some_score self p2m pm part s0 sc t he
        obtain ⟨i1, i2⟩ := ih (recordEntry info s0 sc t part) info' h s
        rw [recordEntry_used, recordEntry_scores] at i1 i2
        refine ⟨?_, ?_⟩
        · intro hu
          by_cases hu0 : s0 ∈ info.usedSliceIds
          · simp only [hu0, if_true] at i1
            exact i1 hu
          · simp only [hu0, if_false] at i1
            rw [i1 (List.mem_append_left _ hu), mapFind_mapAssign]
            have hne : s0 ≠ s := fun heq => hu0 (heq ▸ hu)
            simp [hne]
        · intro hu
          rw [List.find?_cons, hs s]
          rcases eq_or_ne s0 s with rfl | hne
          · simp only [hu, if_false] at i1
            rw [i1 (by simp), mapFind_mapAssign]
            simp [hsc]
          · have hdec : decide (s0 = s) = false := by simp [hne]
            rw [hdec]
            by_cases hu0 : s0 ∈ info.usedSliceIds
            · simp only [hu0, if_true] at i2
              exact i2 hu
            · simp only [hu0, if_false] at i2
              rw [i2 (by simp [hu, hne.symm]), mapFind_mapAssign]
              simp [hne]

/-- The Slices returned by `CollectSlices` with their scores: the Slice of a slice
id has the score recorded by the root of the first particle of that slice. -/
theorem CollectSlices_scores_of_ok (self : LArPandoraExternalEventBuilding)
    (all : PFParticleVector) (p2m : PFParticleToMetadata) (pm : PFParticleMap)
    (slices : SliceVector) (h : CollectSlices self all p2m pm [] = .ok slices) :
    ∃ ids : List Nat, ids.Sorted (· < ·) ∧
      (∀ s, s ∈ ids ↔ ∃ p ∈ all, inSlice p2m pm s p = true) ∧
      List.Forall₂ (fun s sl =>
        sl.GetTargetHypothesis = all.filter (inBucket self p2m pm s true) ∧
        sl.GetCosmicRayHypothesis = all.filter (inBucket self p2m pm s false) ∧
        ∃ p, all.find? (inSlice p2m pm s) = some p ∧
          rootScore self p2m pm p = some sl.GetTargetScore) ids slices := by
  rcases CollectSlices_cases self all p2m pm [] with ⟨info, hl, hc⟩ | ⟨e, _, hc⟩
  · rw [hc] at h
    simp only [List.nil_append, Except.ok.injEq] at h
    subst h
    obtain ⟨i1, i2, i3, i4⟩ := collectSlicesLoop_ok self p2m pm all _ _ hl
    obtain ⟨hnd, hsc⟩ := i4 consistent_init
    have hscores := collectSlicesLoop_scores self p2m pm all _ _ hl
    have hperm := List.perm_insertionSort (· ≤ ·) info.usedSliceIds
    refine ⟨info.usedSliceIds.insertionSort (· ≤ ·), ?_, ?_, ?_⟩
    · exact (List.sorted_insertionSort (· ≤ ·) _).lt_of_le (hperm.nodup_iff.2 hnd)
    · intro s
      rw [hperm.mem_iff, i3 s]
      simp
    · rw [List.forall₂_map_right_iff, List.forall₂_same]
      intro s hs
      refine ⟨?_, ?_, ?_⟩
      · show bucket info.targetHypotheses s = _
        rw [i1 s]
        simp [bucket, mapFind]
      · show bucket info.crHypotheses s = _
        rw [i2 s]
        simp [bucket, mapFind]
      · have hs' : s ∈ info.usedSliceIds := hperm.mem_iff.1 hs
        obtain ⟨sc, hsc'⟩ := hsc s hs'
        have h2 := (hscores s).2 (by simp)
        rw [hsc'] at h2
        cases hf : all.find? (inSlice p2m pm s) with
        | none => simp [hf, mapFind] at h2
        | some p =>
          simp only [hf] at h2
          refine ⟨p, rfl, ?_⟩
          show rootScore self p2m pm p = some ((mapFind info.targetScores s).getD Float32.nan)
          rw [hsc', ← h2]
          rfl
  · rw [hc] at h
    simp at h

theorem rootScore_eq_some_iff (self : LArPandoraExternalEventBuilding)
    (p2m : PFParticleToMetadata) (pm : PFParticleMap) (p : PFParticle) (sc : Float32) :
    rootScore self p2m pm p = some sc ↔
      ∃ md, rootMetadata p2m pm p = some md ∧ mapFind md.propertiesMap self.m_scoreKey = some sc := by
  unfold rootScore
  cases hm : rootMetadata p2m pm p with
  | none => simp
  | some md => simp

/-! ## Lemmas on the particle map -/

theorem mapFind_eq_none_iff {K V : Type} [DecidableEq K] (m : List (K × V)) (k : K) :
    mapFind m k = none ↔ k ∉ m.map Prod.fst := by
  induction m with
  | nil => simp [mapFind]
  | cons hd tl ih =>
    obtain ⟨a, b⟩ := hd
    rcases eq_or_ne a k with rfl | hne
    · simp [mapFind]
    · simp [mapFind, hne, hne.symm, ih]

/-- The two outcomes of `BuildPFParticleMap`: when the self-identifiers of the
entries are distinct from each other and from the keys already in the map, one
entry per particle is appended; otherwise the exception is thrown. -/
theorem BuildPFParticleMap_eq (l : PFParticleToMetadata) :
    ∀ acc : PFParticleMap,
      ((l.map (fun e => (narrowToInt e.1.self))).Nodup ∧ (∀ e ∈ l, (narrowToInt e.1.self) ∉ acc.map Prod.fst) →
        BuildPFParticleMap l acc = .ok (acc ++ l.map (fun e => (narrowToInt e.1.self, e.1)))) ∧
      (¬ ((l.map (fun e => (narrowToInt e.1.self))).Nodup ∧ ∀ e ∈ l, (narrowToInt e.1.self) ∉ acc.map Prod.fst) →
        BuildPFParticleMap l acc = .error .repeatedParticles) := by
  induction l with
  | nil =>
    intro acc
    simp [BuildPFParticleMap]
  | cons e rest ih =>
    intro acc
    by_cases hk : (narrowToInt e.1.self) ∈ acc.map Prod.fst
    · have hfind : ∃ v, mapFind acc (narrowToInt e.1.self) = some v := by
        cases hf : mapFind acc (narrowToInt e.1.self) with
        | none => exact absurd hk ((mapFind_eq_none_iff acc _).1 hf)
        | some v => exact ⟨v, rfl⟩
      obtain ⟨v, hv⟩ := hfind
      refine ⟨?_, ?_⟩
      · rintro ⟨_, h2⟩
        exact absurd hk (h2 e (List.mem_cons_self _ _))
      · intro _
        simp [BuildPFParticleMap, mapInsert, hv]
    · have hf : mapFind acc (narrowToInt e.1.self) = none := (mapFind_eq_none_iff acc _).2 hk
      have hstep : BuildPFParticleMap (e :: rest) acc =
          BuildPFParticleMap rest (acc ++ [(narrowToInt e.1.self, e.1)]) := by
        simp [BuildPFParticleMap, mapInsert, hf]
      have hkeys : ∀ k, k ∈ (acc ++ [(narrowToInt e.1.self, e.1)]).map Prod.fst ↔
          k ∈ acc.map Prod.fst ∨ k = (narrowToInt e.1.self) := by
        intro k
        simp
      obtain ⟨ih1, ih2⟩ := ih (acc ++ [(narrowToInt e.1.self, e.1)])
      have hcond : ((rest.map (fun e => (narrowToInt e.1.self))).Nodup ∧
          ∀ x ∈ rest, (narrowToInt x.1.self) ∉ (acc ++ [(narrowToInt e.1.self, e.1)]).map Prod.fst) ↔
          (((e :: rest).map (fun e => (narrowToInt e.1.self))).Nodup ∧
            ∀ x ∈ e :: rest, (narrowToInt x.1.self) ∉ acc.map Prod.fst) := by
        rw [List.map_cons, List.nodup_cons]
        constructor
        · rintro ⟨h1, h2⟩
          refine ⟨⟨?_, h1⟩, ?_⟩
          · intro hmem
            obtain ⟨x, hx, hxe⟩ := List.mem_map.1 hmem
            exact h2 x hx ((hkeys _).2 (Or.inr hxe))
          · intro x hx
            rcases List.mem_cons.1 hx with rfl | hx
            · exact hk
            · exact fun hmem => h2 x hx ((hkeys _).2 (Or.inl hmem))
        · rintro ⟨⟨h1, h2⟩, h3⟩
          refine ⟨h2, ?_⟩
          intro x hx hmem
          rcases (hkeys _).1 hmem with hmem | hxe
          · exact h3 x (List.mem_cons_of_mem _ hx) hmem
          · exact h1 (List.mem_map.2 ⟨x, hx, hxe⟩)
      refine ⟨?_, ?_⟩
      · intro hc
        rw [hstep, ih1 (hcond.2 hc)]
        simp
      · intro hc
        rw [hstep]
        exact ih2 (fun h => hc (hcond.1 h))

/-- A map with one entry per particle, keyed by distinct converted
self-identifiers, finds every particle under its converted self-identifier. -/
theorem mapFind_self (l : List PFParticle) (h : (l.map (fun p => narrowToInt p.self)).Nodup) :
    ∀ p ∈ l, mapFind (l.map (fun p => (narrowToInt p.self, p))) (narrowToInt p.self) = some p := by
  induction l with
  | nil =>
    intro p hp
    simp at hp
  | cons q rest ih =>
    intro p hp
    rw [List.map_cons, List.nodup_cons] at h
    rcases List.mem_cons.1 hp with rfl | hp
    · simp [mapFind]
    · have hne : narrowToInt q.self ≠ narrowToInt p.self := by
        intro heq
        exact h.1 (List.mem_map.2 ⟨p, hp, heq.symm⟩)
      simp only [List.map_cons, mapFind, hne, if_false]
      exact ih h.2 p hp

/-- Two `size_t` values convert to the same `int` exactly when they are congruent
modulo `2 ^ 32`. -/
theorem narrowToInt_eq_iff (a b : Nat) :
    narrowToInt a = narrowToInt b ↔ a % 2 ^ 32 = b % 2 ^ 32 := by
  unfold narrowToInt
  have ha : a % 2 ^ 32 < 2 ^ 32 := Nat.mod_lt _ (by norm_num)
  have hb : b % 2 ^ 32 < 2 ^ 32 := Nat.mod_lt _ (by norm_num)
  split <;> split <;> constructor <;> intro h <;> simp only [Int.ofNat_eq_coe] at * <;> omega

theorem CollectConsolidatedParticles_congr (all cc cc' : PFParticleVector)
    (slices slices' : SliceVector)
    (h : ∀ p, (p ∈ cc ∨ ∃ sl ∈ slices,
        p ∈ (if sl.IsTaggedAsTarget then sl.GetTargetHypothesis
             else sl.GetCosmicRayHypothesis)) ↔
      (p ∈ cc' ∨ ∃ sl ∈ slices',
        p ∈ (if sl.IsTaggedAsTarget then sl.GetTargetHypothesis
             else sl.GetCosmicRayHypothesis))) :
    CollectConsolidatedParticles all cc slices [] =
      CollectConsolidatedParticles all cc' slices' [] := by
  rw [CollectConsolidatedParticles_eq, CollectConsolidatedParticles_eq]
  apply List.filter_congr
  intro p _
  rw [decide_eq_decide]
  exact h p

/-! ## Lemmas on the whole run -/

theorem forall₂_comp {α β γ : Type} {R : α → β → Prop} {S : β → γ → Prop} {T : α → γ → Prop}
    (hT : ∀ a b c, R a b → S b c → T a c) :
    ∀ {l₁ : List α} {l₂ : List β} {l₃ : List γ},
      List.Forall₂ R l₁ l₂ → List.Forall₂ S l₂ l₃ → List.Forall₂ T l₁ l₃ := by
  intro l₁ l₂ l₃ h1
  induction h1 generalizing l₃ with
  | nil =>
    intro h2
    cases h2
    exact List.Forall₂.nil
  | cons hab _ ih =>
    intro h2
    cases h2 with
    | cons hbc htl => exact List.Forall₂.cons (hT _ _ _ hab hbc) (ih htl)

theorem forall₂_zip_of_mem_right {α β : Type} {R : α → β → Prop} {l₁ : List α} {l₂ : List β}
    (h : List.Forall₂ R l₁ l₂) : ∀ b ∈ l₂, ∃ a, (a, b) ∈ l₁.zip l₂ ∧ R a b := by
  induction h with
  | nil =>
    intro b hb
    simp at hb
  | cons hab _ ih =>
    intro b hb
    rcases List.mem_cons.1 hb with rfl | hb
    · exact ⟨_, by simp, hab⟩
    · obtain ⟨a, ha, hr⟩ := ih b hb
      exact ⟨a, by simp [ha], hr⟩

theorem inSlice_iff (p2m : PFParticleToMetadata) (pm : PFParticleMap) (s : Nat)
    (p : PFParticle) :
    inSlice p2m pm s p = true ↔
      ∃ md, rootMetadata p2m pm p = some md ∧ isClearCosmic md = false ∧
        sliceIndex md = some s := by
  unfold inSlice
  cases hm : rootMetadata p2m pm p with
  | none => simp
  | some md => simp

theorem inBucket_iff (self : LArPandoraExternalEventBuilding) (p2m : PFParticleToMetadata)
    (pm : PFParticleMap) (s : Nat) (t : Bool) (p : PFParticle) :
    inBucket self p2m pm s t p = true ↔
      ∃ md, rootMetadata p2m pm p = some md ∧ isClearCosmic md = false ∧
        sliceIndex md = some s ∧ self.IsTarget md = t := by
  unfold inBucket
  cases hm : rootMetadata p2m pm p with
  | none => simp
  | some md => simp [and_assoc]

theorem rootMetadata_congr (p2m : PFParticleToMetadata) (pm : PFParticleMap)
    (p q : PFParticle) (h : GetParentPFParticle pm p = GetParentPFParticle pm q) :
    rootMetadata p2m pm p = rootMetadata p2m pm q := by
  unfold rootMetadata
  rw [h]

/-- The steps of a successful `produce`. -/
theorem produce_of_ok (self : LArPandoraExternalEventBuilding)
    (classifySlices : SliceVector → SliceVector) (all : PFParticleVector)
    (p2m : PFParticleToMetadata) (out : PFParticleVector)
    (h : produce self classifySlices all p2m = .ok out) :
    ∃ pm cc slices, BuildPFParticleMap p2m [] = .ok pm ∧
      CollectClearCosmicRays p2m pm all [] = .ok cc ∧
      CollectSlices self all p2m pm [] = .ok slices ∧
      out = CollectConsolidatedParticles all cc (classifySlices slices) [] := by
  unfold produce at h
  cases hb : BuildPFParticleMap p2m [] with
  | error e => simp [hb] at h
  | ok pm =>
    simp only [hb] at h
    cases hc : CollectClearCosmicRays p2m pm all [] with
    | error e => simp [hc] at h
    | ok cc =>
      simp only [hc] at h
      cases hs : CollectSlices self all p2m pm [] with
      | error e => simp [hs] at h
      | ok slices =>
        simp only [hs, Except.ok.injEq] at h
        exact ⟨pm, cc, slices, rfl, hc, hs, h.symm⟩

/-- Membership in the consolidated list when the Slices keep the buckets built
by `CollectSlices`. -/
theorem mem_consolidated_iff (self : LArPandoraExternalEventBuilding)
    (all : PFParticleVector) (p2m : PFParticleToMetadata) (pm : PFParticleMap)
    (ids : List Nat) (classified : SliceVector)
    (hall : List.Forall₂ (fun s sl =>
      sl.GetTargetHypothesis = all.filter (inBucket self p2m pm s true) ∧
      sl.GetCosmicRayHypothesis = all.filter (inBucket self p2m pm s false)) ids classified)
    (p : PFParticle) :
    p ∈ CollectConsolidatedParticles all (all.filter (rootIsClearCosmic p2m pm)) classified [] ↔
      p ∈ all ∧ (rootIsClearCosmic p2m pm p = true ∨
        ∃ md s sl, rootMetadata p2m pm p = some md ∧ isClearCosmic md = false ∧
          sliceIndex md = some s ∧ (s, sl) ∈ ids.zip classified ∧
          sl.IsTaggedAsTarget = self.IsTarget md) := by
  rw [CollectConsolidatedParticles_eq, List.mem_filter, decide_eq_true_eq, List.mem_filter]
  have hzip : ∀ (s : Nat) (sl : Slice), (s, sl) ∈ ids.zip classified →
      sl.GetTargetHypothesis = all.filter (inBucket self p2m pm s true) ∧
      sl.GetCosmicRayHypothesis = all.filter (inBucket self p2m pm s false) :=
    fun _ _ h => (List.forall₂_iff_zip.1 hall).2 h
  constructor
  · rintro ⟨hp, h⟩
    refine ⟨hp, ?_⟩
    rcases h with h | ⟨sl, hsl, hsel⟩
    · exact Or.inl h.2
    · right
      obtain ⟨s, hs, ht, hc⟩ := forall₂_zip_of_mem_right hall sl hsl
      cases htag : sl.IsTaggedAsTarget
      · simp only [htag, Bool.false_eq_true, if_false] at hsel
        rw [hc, List.mem_filter] at hsel
        obtain ⟨md, hmd, hncc, hidx, htar⟩ := (inBucket_iff self _ _ s false p).1 hsel.2
        exact ⟨md, s, sl, hmd, hncc, hidx, hs, by rw [htag, htar]⟩
      · simp only [htag, if_true] at hsel
        rw [ht, List.mem_filter] at hsel
        obtain ⟨md, hmd, hncc, hidx, htar⟩ := (inBucket_iff self _ _ s true p).1 hsel.2
        exact ⟨md, s, sl, hmd, hncc, hidx, hs, by rw [htag, htar]⟩
  · rintro ⟨hp, h⟩
    refine ⟨hp, ?_⟩
    rcases h with h | ⟨md, s, sl, hmd, hncc, hidx, hs, htag⟩
    · exact Or.inl ⟨hp, h⟩
    · right
      obtain ⟨ht, hc⟩ := hzip s sl hs
      refine ⟨sl, (List.of_mem_zip hs).2, ?_⟩
      cases htar : self.IsTarget md
      · rw [htar] at htag
        simp only [htag, Bool.false_eq_true, if_false]
        rw [hc, List.mem_filter]
        exact ⟨hp, (inBucket_iff self _ _ s false p).2 ⟨md, hmd, hncc, hidx, htar⟩⟩
      · rw [htar] at htag
        simp only [htag, if_true]
        rw [ht, List.mem_filter]
        exact ⟨hp, (inBucket_iff self _ _ s true p).2 ⟨md, hmd, hncc, hidx, htar⟩⟩

/-- The buckets of the classified Slices are the buckets built by
`CollectSlices` when the classifier keeps the hypotheses. -/
theorem classified_buckets (self : LArPandoraExternalEventBuilding)
    (all : PFParticleVector) (p2m : PFParticleToMetadata) (pm : PFParticleMap)
    (slices classified : SliceVector)
    (hclass : List.Forall₂ SameHypotheses slices classified)
    (h : CollectSlices self all p2m pm [] = .ok slices) :
    ∃ ids : List Nat, ids.Sorted (· < ·) ∧
      (∀ s, s ∈ ids ↔ ∃ p ∈ all, inSlice p2m pm s p = true) ∧
      List.Forall₂ (fun s sl =>
        sl.GetTargetHypothesis = all.filter (inBucket self p2m pm s true) ∧
        sl.GetCosmicRayHypothesis = all.filter (inBucket self p2m pm s false)) ids classified := by
  obtain ⟨ids, hsorted, hmem, hall⟩ := CollectSlices_of_ok self all p2m pm slices h
  refine ⟨ids, hsorted, hmem, forall₂_comp ?_ hall hclass⟩
  rintro s sl sl' ⟨ht, hc, _⟩ ⟨ht', hc'⟩
  exact ⟨ht'.trans ht, hc'.trans hc⟩

/-! ## The claims -/

/-- C1: `CollectConsolidatedParticles` returns the full particle list filtered,
in its original order, to the particles that occur in the clear-cosmic list or in
the selected bucket of some slice, the selected bucket being the target
hypothesis when the slice is tagged as target and the cosmic-ray hypothesis
otherwise.  With particles `[A, B, C]`, clear cosmics `[A]` and one slice with
target `[B]` and cosmic `[C]` tagged as target, the result is `[A, B]`. -/
theorem CollectConsolidatedParticles_filter :
    (∀ (allParticles clearCosmics : PFParticleVector) (slices : SliceVector),
      CollectConsolidatedParticles allParticles clearCosmics slices [] =
        allParticles.filter (fun p => decide (p ∈ clearCosmics ∨ ∃ sl ∈ slices,
          p ∈ (if sl.IsTaggedAsTarget then sl.GetTargetHypothesis
               else sl.GetCosmicRayHypothesis)))) ∧
    (∀ (a b c : PFParticle) (targetScore : Float32), c ≠ a → c ≠ b →
      CollectConsolidatedParticles [a, b, c] [a] [⟨targetScore, [b], [c], true⟩] [] = [a, b]) := by
  refine ⟨CollectConsolidatedParticles_eq, ?_⟩
  intro a b c targetScore hca hcb
  rw [CollectConsolidatedParticles_eq]
  simp [List.filter_cons, Slice.IsTaggedAsTarget, Slice.GetTargetHypothesis, hca, hcb]

/-- C1, on the example event: particles A, B, C, with A clear cosmic and the
slice of B and C tagged as target. -/
theorem CollectConsolidatedParticles_filter_witness :
    CollectConsolidatedParticles [Example.pA, Example.pB, Example.pC] [Example.pA]
      [⟨Example.score, [Example.pB], [Example.pC], true⟩] [] = [Example.pA, Example.pB] :=
  CollectConsolidatedParticles_filter.2 Example.pA Example.pB Example.pC Example.score
    (by decide) (by decide)

/-- C2: the list produced by `CollectConsolidatedParticles` is a subsequence of
the full particle list: it is obtained by deleting elements only, two particles
that both survive keep their relative order, and no particle occurs more often
in the output than in the input. -/
theorem CollectConsolidatedParticles_sublist (allParticles clearCosmics : PFParticleVector)
    (slices : SliceVector) :
    List.Sublist (CollectConsolidatedParticles allParticles clearCosmics slices []) allParticles ∧
    (∀ p1 p2, List.Sublist [p1, p2] allParticles →
      p1 ∈ CollectConsolidatedParticles allParticles clearCosmics slices [] →
      p2 ∈ CollectConsolidatedParticles allParticles clearCosmics slices [] →
      List.Sublist [p1, p2] (CollectConsolidatedParticles allParticles clearCosmics slices [])) ∧
    (∀ p, (CollectConsolidatedParticles allParticles clearCosmics slices []).count p ≤
      allParticles.count p) := by
  rw [CollectConsolidatedParticles_eq]
  refine ⟨List.filter_sublist _, ?_, ?_⟩
  · intro p1 p2 hsub h1 h2
    have hf := hsub.filter (fun p => decide (p ∈ clearCosmics ∨ ∃ sl ∈ slices,
      p ∈ (if sl.IsTaggedAsTarget then sl.GetTargetHypothesis else sl.GetCosmicRayHypothesis)))
    rw [List.mem_filter] at h1 h2
    rw [List.filter_cons, if_pos h1.2, List.filter_cons, if_pos h2.2] at hf
    exact hf
  · intro p
    exact (List.filter_sublist _).count_le p

/-- C2, on the example event: A comes before B in the input and in the output. -/
theorem CollectConsolidatedParticles_sublist_witness :
    List.Sublist [Example.pA, Example.pB]
      (CollectConsolidatedParticles [Example.pA, Example.pB, Example.pC] [Example.pA]
        [⟨Example.score, [Example.pB], [Example.pC], true⟩] []) :=
  (CollectConsolidatedParticles_sublist [Example.pA, Example.pB, Example.pC] [Example.pA]
    [⟨Example.score, [Example.pB], [Example.pC], true⟩]).2.1 Example.pA Example.pB
    (by decide) (by decide) (by decide)

/-- C3: when `CollectSlices` succeeds there is a strictly ascending list of slice
ids, consisting exactly of the rounded slice indices found on the roots that are
not clear cosmic, such that the returned Slices correspond one to one and in
order to these ids and the Slice of an id holds exactly the input particles
whose root is not clear cosmic and has that slice index.  A slice index carried
only by clear-cosmic particles is therefore not in the list, and when every
particle is clear cosmic no Slice is returned. -/
theorem CollectSlices_one_slice_per_index (self : LArPandoraExternalEventBuilding)
    (allParticles : PFParticleVector) (particlesToMetadata : PFParticleToMetadata)
    (particleMap : PFParticleMap) (slices : SliceVector)
    (h : CollectSlices self allParticles particlesToMetadata particleMap [] = .ok slices) :
    (∃ ids : List Nat, ids.Sorted (· < ·) ∧
      (∀ s, s ∈ ids ↔ ∃ p ∈ allParticles, inSlice particlesToMetadata particleMap s p = true) ∧
      List.Forall₂ (fun s sl => ∀ p,
        (p ∈ sl.GetTargetHypothesis ∨ p ∈ sl.GetCosmicRayHypothesis) ↔
          (p ∈ allParticles ∧ inSlice particlesToMetadata particleMap s p = true)) ids slices) ∧
    ((∀ p ∈ allParticles, rootIsClearCosmic particlesToMetadata particleMap p = true) →
      slices = []) := by
  obtain ⟨ids, hsorted, hmem, hall⟩ :=
    CollectSlices_of_ok self allParticles particlesToMetadata particleMap slices h
  refine ⟨⟨ids, hsorted, hmem, ?_⟩, ?_⟩
  · refine hall.imp ?_
    rintro s sl ⟨ht, hc, _⟩ p
    rw [ht, hc, List.mem_filter, List.mem_filter]
    constructor
    · rintro (⟨hp, hb⟩ | ⟨hp, hb⟩)
      · exact ⟨hp, (inBucket_imp_inSlice self _ _ s true p hb).1⟩
      · exact ⟨hp, (inBucket_imp_inSlice self _ _ s false p hb).1⟩
    · rintro ⟨hp, hs⟩
      rcases inSlice_imp_inBucket self _ _ s p hs with hb | hb
      · exact Or.inl ⟨hp, hb⟩
      · exact Or.inr ⟨hp, hb⟩
  · intro hcc
    have hids : ids = [] := by
      apply List.eq_nil_iff_forall_not_mem.2
      intro s hs
      obtain ⟨p, hp, hps⟩ := (hmem s).1 hs
      rw [rootIsClearCosmic_not_inSlice _ _ s p (hcc p hp)] at hps
      simp at hps
    subst hids
    cases hall
    rfl

/-- C3, on the example event: A and H are clear cosmic, H carrying the slice
index 7; B, its daughter D and C are in slice 0; E is in slice 3 and comes first
in the input. -/
theorem CollectSlices_one_slice_per_index_witness :
    CollectSlices Example.neutrinoMode Example.particles
        Example.particlesToMetadata Example.particleMap [] = .ok Example.slices ∧
    (∃ ids : List Nat, ids.Sorted (· < ·) ∧
      (∀ s, s ∈ ids ↔ ∃ p ∈ Example.particles,
        inSlice Example.particlesToMetadata Example.particleMap s p = true) ∧
      List.Forall₂ (fun (s : Nat) (sl : Slice) => ∀ p,
        (p ∈ sl.GetTargetHypothesis ∨ p ∈ sl.GetCosmicRayHypothesis) ↔
          (p ∈ Example.particles ∧
            inSlice Example.particlesToMetadata Example.particleMap s p = true)) ids
        Example.slices) :=
  ⟨rfl, (CollectSlices_one_slice_per_index Example.neutrinoMode Example.particles
    Example.particlesToMetadata Example.particleMap Example.slices rfl).1⟩

/-- C4: when `CollectSlices` succeeds, the target-hypothesis bucket of the Slice
of a slice id is the input list filtered, in input order, to the particles whose
root is not clear cosmic, has that rounded slice index and satisfies `IsTarget`,
and the cosmic-ray bucket is the same filter with `IsTarget` false.  A particle
whose root record has neither the "IsClearCosmic" key nor the target key is in
the cosmic-ray bucket of a Slice and in no target-hypothesis bucket. -/
theorem CollectSlices_buckets (self : LArPandoraExternalEventBuilding)
    (allParticles : PFParticleVector) (particlesToMetadata : PFParticleToMetadata)
    (particleMap : PFParticleMap) (slices : SliceVector)
    (h : CollectSlices self allParticles particlesToMetadata particleMap [] = .ok slices) :
    (∃ ids : List Nat, ids.Sorted (· < ·) ∧
      (∀ s, s ∈ ids ↔ ∃ p ∈ allParticles, inSlice particlesToMetadata particleMap s p = true) ∧
      List.Forall₂ (fun s sl =>
        sl.GetTargetHypothesis =
          allParticles.filter (inBucket self particlesToMetadata particleMap s true) ∧
        sl.GetCosmicRayHypothesis =
          allParticles.filter (inBucket self particlesToMetadata particleMap s false)) ids slices) ∧
    (∀ p ∈ allParticles, ∀ parent metadata,
      GetParentPFParticle particleMap p = .ok parent →
      mapFind particlesToMetadata parent = some metadata →
      mapFind metadata.propertiesMap "IsClearCosmic" = none →
      mapFind metadata.propertiesMap self.m_targetKey = none →
      (∃ sl ∈ slices, p ∈ sl.GetCosmicRayHypothesis) ∧
      ∀ sl ∈ slices, p ∉ sl.GetTargetHypothesis) := by
  obtain ⟨ids, hsorted, hmem, hall⟩ :=
    CollectSlices_of_ok self allParticles particlesToMetadata particleMap slices h
  refine ⟨⟨ids, hsorted, hmem, hall.imp (fun s sl hs => ⟨hs.1, hs.2.1⟩)⟩, ?_⟩
  intro p hp parent md hr hm hcc ht
  have hmd : rootMetadata particlesToMetadata particleMap p = some md := by
    simp [rootMetadata, hr, hm]
  have hncc : isClearCosmic md = false := by simp [isClearCosmic, hcc]
  have hnt : self.IsTarget md = false := by simp [IsTarget, GetMetadataValue, ht]
  obtain ⟨o, ho⟩ := CollectSlices_entries self allParticles particlesToMetadata particleMap
    [] slices h p hp
  rw [sliceEntry_of_rootMetadata self _ _ p md hmd] at ho
  simp only [hncc, Bool.false_eq_true, if_false] at ho
  cases h2 : mapFind md.propertiesMap "SliceIndex" with
  | none => simp [h2] at ho
  | some sv =>
    have hb : inBucket self particlesToMetadata particleMap sv.round.toUInt false p = true := by
      simp [inBucket, hmd, hncc, sliceIndex, h2, hnt]
    have hs : inSlice particlesToMetadata particleMap sv.round.toUInt p = true := by
      simp [inSlice, hmd, hncc, sliceIndex, h2]
    refine ⟨?_, ?_⟩
    · obtain ⟨sl, hsl, _, hsc, _⟩ :=
        forall₂_exists_right hall sv.round.toUInt ((hmem _).2 ⟨p, hp, hs⟩)
      refine ⟨sl, hsl, ?_⟩
      rw [hsc, List.mem_filter]
      exact ⟨hp, hb⟩
    · intro sl hsl
      obtain ⟨s, _, hst, _, _⟩ := forall₂_exists_left hall sl hsl
      rw [hst, List.mem_filter]
      simp [inBucket, hmd, hnt]

/-- C4, on the example event: B and C are roots in slice 0 with score 0.8, B is
flagged as the neutrino and C is not; the record of E has neither flag. -/
theorem CollectSlices_buckets_witness :
    CollectSlices Example.neutrinoMode [Example.pA, Example.pB, Example.pC]
        Example.particlesToMetadata Example.particleMap [] =
      .ok [⟨Example.score, [Example.pB], [Example.pC], false⟩] ∧
    (∃ sl ∈ Example.slices, Example.pE ∈ sl.GetCosmicRayHypothesis) :=
  ⟨rfl, ((CollectSlices_buckets Example.neutrinoMode Example.particles
    Example.particlesToMetadata Example.particleMap Example.slices rfl).2 Example.pE (by decide)
    Example.pE Example.mdE rfl rfl rfl rfl).1⟩

/-- C5: when every particle resolves to a root that has a metadata record,
`CollectClearCosmicRays` succeeds and returns the input list filtered, in its
original order, to the particles whose root record has the key "IsClearCosmic"
with a value that rounds to a non-zero number; a root record without the key
counts as not clear cosmic. -/
theorem CollectClearCosmicRays_filter (particlesToMetadata : PFParticleToMetadata)
    (particleMap : PFParticleMap) (allParticles : PFParticleVector)
    (h : RootsHaveMetadata particlesToMetadata particleMap allParticles) :
    CollectClearCosmicRays particlesToMetadata particleMap allParticles [] =
      .ok (allParticles.filter (rootIsClearCosmic particlesToMetadata particleMap)) ∧
    (∀ p, rootIsClearCosmic particlesToMetadata particleMap p = true ↔
      ∃ parent metadata value, GetParentPFParticle particleMap p = .ok parent ∧
        mapFind particlesToMetadata parent = some metadata ∧
        mapFind metadata.propertiesMap "IsClearCosmic" = some value ∧
        value.round.toBool = true) ∧
    (∀ p parent metadata, GetParentPFParticle particleMap p = .ok parent →
      mapFind particlesToMetadata parent = some metadata →
      mapFind metadata.propertiesMap "IsClearCosmic" = none →
      rootIsClearCosmic particlesToMetadata particleMap p = false) := by
  refine ⟨?_, ?_, ?_⟩
  · obtain ⟨out, hout⟩ := CollectClearCosmicRays_ok particlesToMetadata particleMap allParticles []
      ((rootsHaveMetadata_iff _ _ _).1 h)
    rw [hout, (CollectClearCosmicRays_of_ok _ _ _ _ _ hout).1, List.nil_append]
  · intro p
    unfold rootIsClearCosmic rootMetadata isClearCosmic
    cases hr : GetParentPFParticle particleMap p with
    | error e => simp
    | ok parent =>
      cases hm : mapFind particlesToMetadata parent with
      | none => simp [hm]
      | some md =>
        cases hv : mapFind md.propertiesMap "IsClearCosmic" with
        | none => simp [hm, hv]
        | some v => simp [hm, hv]
  · intro p parent metadata hr hm hv
    simp [rootIsClearCosmic, rootMetadata, isClearCosmic, hr, hm, hv]

/-- C5, on the example event: only particle A has a clear-cosmic root; the
record of D, a daughter of B, and the record of E lack the key. -/
theorem CollectClearCosmicRays_filter_witness :
    CollectClearCosmicRays Example.particlesToMetadata Example.particleMap
      [Example.pA, Example.pB, Example.pC, Example.pD, Example.pE] [] = .ok [Example.pA] :=
  (CollectClearCosmicRays_filter Example.particlesToMetadata Example.particleMap
    [Example.pA, Example.pB, Example.pC, Example.pD, Example.pE]
    (by rw [rootsHaveMetadata_iff]; decide)).1

/-- C6: when `CollectClearCosmicRays` and `CollectSlices` both succeed on the same
input, no particle of the clear-cosmic list is in the target or cosmic-ray bucket
of a returned Slice. -/
theorem clearCosmics_disjoint_from_slices (self : LArPandoraExternalEventBuilding)
    (allParticles : PFParticleVector) (particlesToMetadata : PFParticleToMetadata)
    (particleMap : PFParticleMap) (clearCosmics : PFParticleVector) (slices : SliceVector)
    (h1 : CollectClearCosmicRays particlesToMetadata particleMap allParticles [] =
      .ok clearCosmics)
    (h2 : CollectSlices self allParticles particlesToMetadata particleMap [] = .ok slices) :
    ∀ p ∈ clearCosmics, ∀ sl ∈ slices,
      p ∉ sl.GetTargetHypothesis ∧ p ∉ sl.GetCosmicRayHypothesis := by
  obtain ⟨hcc, _⟩ := CollectClearCosmicRays_of_ok particlesToMetadata particleMap allParticles
    [] clearCosmics h1
  obtain ⟨ids, _, _, hall⟩ :=
    CollectSlices_of_ok self allParticles particlesToMetadata particleMap slices h2
  intro p hp sl hsl
  rw [hcc, List.nil_append, List.mem_filter] at hp
  obtain ⟨s, _, hst, hsc, _⟩ := forall₂_exists_left hall sl hsl
  rw [hst, hsc, List.mem_filter, List.mem_filter]
  constructor
  · rintro ⟨_, hb⟩
    have := (inBucket_imp_inSlice self _ _ s true p hb).2
    rw [hp.2] at this
    simp at this
  · rintro ⟨_, hb⟩
    have := (inBucket_imp_inSlice self _ _ s false p hb).2
    rw [hp.2] at this
    simp at this

/-- C6, on the example event: the clear-cosmic list is `[A, H]`, and A is in no
bucket of the Slice of slice index 0. -/
theorem clearCosmics_disjoint_from_slices_witness :
    Example.pA ∉ Example.slice0.GetTargetHypothesis ∧
    Example.pA ∉ Example.slice0.GetCosmicRayHypothesis :=
  clearCosmics_disjoint_from_slices Example.neutrinoMode Example.particles
    Example.particlesToMetadata Example.particleMap [Example.pA, Example.pH] Example.slices
    rfl rfl Example.pA (by decide) Example.slice0 (by decide)

/-- C7: every Slice returned by a successful `CollectSlices` has a particle in its
target-hypothesis bucket or in its cosmic-ray bucket; either bucket alone can be
empty. -/
theorem slice_buckets_not_both_empty :
    (∀ (self : LArPandoraExternalEventBuilding) (allParticles : PFParticleVector)
      (particlesToMetadata : PFParticleToMetadata) (particleMap : PFParticleMap)
      (slices : SliceVector),
      CollectSlices self allParticles particlesToMetadata particleMap [] = .ok slices →
      ∀ sl ∈ slices, sl.GetTargetHypothesis ≠ [] ∨ sl.GetCosmicRayHypothesis ≠ []) ∧
    (∃ sl, CollectSlices Example.neutrinoMode [Example.pC] Example.particlesToMetadata
        Example.particleMap [] = .ok [sl] ∧
      sl.GetTargetHypothesis = [] ∧ sl.GetCosmicRayHypothesis ≠ []) ∧
    (∃ sl, CollectSlices Example.neutrinoMode [Example.pB] Example.particlesToMetadata
        Example.particleMap [] = .ok [sl] ∧
      sl.GetTargetHypothesis ≠ [] ∧ sl.GetCosmicRayHypothesis = []) := by
  refine ⟨?_, ⟨_, rfl, rfl, by decide⟩, ⟨_, rfl, by decide, rfl⟩⟩
  intro self allParticles particlesToMetadata particleMap slices h sl hsl
  obtain ⟨ids, _, hmem, hall⟩ :=
    CollectSlices_of_ok self allParticles particlesToMetadata particleMap slices h
  obtain ⟨s, hs, hst, hsc, _⟩ := forall₂_exists_left hall sl hsl
  obtain ⟨p, hp, hps⟩ := (hmem s).1 hs
  rcases inSlice_imp_inBucket self _ _ s p hps with hb | hb
  · left
    rw [hst]
    exact List.ne_nil_of_mem (List.mem_filter.2 ⟨hp, hb⟩)
  · right
    rw [hsc]
    exact List.ne_nil_of_mem (List.mem_filter.2 ⟨hp, hb⟩)

/-- C7, on the example event: the Slice of slice index 3 has a particle. -/
theorem slice_buckets_not_both_empty_witness :
    Example.slice3.GetTargetHypothesis ≠ [] ∨ Example.slice3.GetCosmicRayHypothesis ≠ [] :=
  slice_buckets_not_both_empty.1 Example.neutrinoMode Example.particles
    Example.particlesToMetadata Example.particleMap Example.slices rfl
    Example.slice3 (by decide)

/-- C8: when every particle resolves to a root that has a metadata record,
`CollectSlices` fails exactly when some particle has a root that is not clear
cosmic and whose record lacks the key "SliceIndex" or the score key, and the
exception then reports one of these two keys; so a key missing on a clear-cosmic
root causes no failure.  On no input at all does `CollectSlices` throw the
"Scrambled slice information" exception. -/
theorem CollectSlices_fails_iff (self : LArPandoraExternalEventBuilding)
    (allParticles : PFParticleVector) (particlesToMetadata : PFParticleToMetadata)
    (particleMap : PFParticleMap) :
    (RootsHaveMetadata particlesToMetadata particleMap allParticles →
      ((∃ e, CollectSlices self allParticles particlesToMetadata particleMap [] = .error e) ↔
        ∃ p ∈ allParticles, ∃ metadata,
          rootMetadata particlesToMetadata particleMap p = some metadata ∧
          isClearCosmic metadata = false ∧
          (mapFind metadata.propertiesMap "SliceIndex" = none ∨
            mapFind metadata.propertiesMap self.m_scoreKey = none)) ∧
      (∀ e, CollectSlices self allParticles particlesToMetadata particleMap [] = .error e →
        e = .missingKey "SliceIndex" ∨ e = .missingKey self.m_scoreKey)) ∧
    (∀ sliceId, CollectSlices self allParticles particlesToMetadata particleMap [] ≠
      .error (.scrambledSlice sliceId)) := by
  obtain ⟨hiff, herr⟩ :=
    CollectSlices_error_iff self allParticles particlesToMetadata particleMap []
  refine ⟨?_, ?_⟩
  · intro hroots
    rw [rootsHaveMetadata_iff] at hroots
    have key : ∀ p ∈ allParticles, ∀ e, sliceEntry self particlesToMetadata particleMap p = .error e →
        ∃ md, rootMetadata particlesToMetadata particleMap p = some md ∧
          isClearCosmic md = false ∧
          (mapFind md.propertiesMap "SliceIndex" = none ∨
            mapFind md.propertiesMap self.m_scoreKey = none) ∧
          (e = .missingKey "SliceIndex" ∨ e = .missingKey self.m_scoreKey) := by
      intro p hp e he
      obtain ⟨md, hmd⟩ := Option.isSome_iff_exists.1 (hroots p hp)
      rw [sliceEntry_of_rootMetadata self _ _ p md hmd] at he
      refine ⟨md, hmd, ?_⟩
      cases hc : isClearCosmic md with
      | true => simp [hc] at he
      | false =>
        cases h2 : mapFind md.propertiesMap "SliceIndex" with
        | none =>
          simp [hc, h2] at he
          exact ⟨rfl, Or.inl rfl, Or.inl he.symm⟩
        | some sv =>
          cases h3 : mapFind md.propertiesMap self.m_scoreKey with
          | none =>
            simp [hc, h2, h3] at he
            exact ⟨rfl, Or.inr rfl, Or.inr he.symm⟩
          | some sc => simp [hc, h2, h3] at he
    refine ⟨?_, ?_⟩
    · rw [hiff]
      constructor
      · rintro ⟨p, hp, e, he⟩
        obtain ⟨md, hmd, hc, hk, _⟩ := key p hp e he
        exact ⟨p, hp, md, hmd, hc, hk⟩
      · rintro ⟨p, hp, md, hmd, hc, hk⟩
        refine ⟨p, hp, ?_⟩
        rw [sliceEntry_of_rootMetadata self _ _ p md hmd]
        cases h2 : mapFind md.propertiesMap "SliceIndex" with
        | none => exact ⟨.missingKey "SliceIndex", by simp [hc]⟩
        | some sv =>
          rcases hk with hk | hk
          · rw [h2] at hk
            simp at hk
          · exact ⟨.missingKey self.m_scoreKey, by simp [hc, hk]⟩
    · intro e he
      obtain ⟨p, hp, hpe⟩ := herr e he
      obtain ⟨_, _, _, _, h⟩ := key p hp e hpe
      exact h
  · intro sliceId he
    obtain ⟨p, _, hpe⟩ := herr _ he
    rcases sliceEntry_error self _ _ p _ hpe with h | h | ⟨key, h⟩ <;> simp at h

/-- C8, on the example event: the record of F has no slice index and the record
of G has no score, and both roots are not clear cosmic; the record of A has
neither key, the record of H has no score, and A and H are clear cosmic. -/
theorem CollectSlices_fails_iff_witness :
    CollectSlices Example.neutrinoMode Example.particles
        Example.particlesToMetadata Example.particleMap [] = .ok Example.slices ∧
    CollectSlices Example.neutrinoMode [Example.pA, Example.pB, Example.pF]
        Example.particlesToMetadata Example.particleMap [] =
      .error (.missingKey "SliceIndex") ∧
    CollectSlices Example.neutrinoMode [Example.pA, Example.pB, Example.pG]
        Example.particlesToMetadata Example.particleMap [] =
      .error (.missingKey "NuScore") ∧
    ((∃ e, CollectSlices Example.neutrinoMode [Example.pA, Example.pB, Example.pF]
        Example.particlesToMetadata Example.particleMap [] = .error e) ↔
      ∃ p ∈ [Example.pA, Example.pB, Example.pF], ∃ metadata,
        rootMetadata Example.particlesToMetadata Example.particleMap p = some metadata ∧
        isClearCosmic metadata = false ∧
        (mapFind metadata.propertiesMap "SliceIndex" = none ∨
          mapFind metadata.propertiesMap Example.neutrinoMode.m_scoreKey = none)) :=
  ⟨rfl, rfl, rfl,
   ((CollectSlices_fails_iff Example.neutrinoMode [Example.pA, Example.pB, Example.pF]
    Example.particlesToMetadata Example.particleMap).1
    (by rw [rootsHaveMetadata_iff]; decide)).1⟩

/-- C9: if some particle of the input list resolves to a root that has no entry
in the particle-to-metadata mapping, then `CollectClearCosmicRays` fails and
`CollectSlices` fails, whatever the other records are, and `produce`, when it
has built this particle map, fails as well. -/
theorem orphaned_particle_aborts (self : LArPandoraExternalEventBuilding)
    (allParticles : PFParticleVector) (particlesToMetadata : PFParticleToMetadata)
    (particleMap : PFParticleMap)
    (h : ∃ p ∈ allParticles, ∃ parent, GetParentPFParticle particleMap p = .ok parent ∧
      mapFind particlesToMetadata parent = none) :
    (∃ e, CollectClearCosmicRays particlesToMetadata particleMap allParticles [] = .error e) ∧
    (∃ e, CollectSlices self allParticles particlesToMetadata particleMap [] = .error e) ∧
    (∀ classifySlices : SliceVector → SliceVector,
      BuildPFParticleMap particlesToMetadata [] = .ok particleMap →
      ∃ e, produce self classifySlices allParticles particlesToMetadata = .error e) := by
  obtain ⟨p, hp, parent, hr, hm⟩ := h
  have hcc : ∃ e, CollectClearCosmicRays particlesToMetadata particleMap allParticles [] =
      .error e := by
    cases hc : CollectClearCosmicRays particlesToMetadata particleMap allParticles [] with
    | error e => exact ⟨e, rfl⟩
    | ok out =>
      have := (CollectClearCosmicRays_of_ok _ _ _ _ _ hc).2 p hp
      simp [rootMetadata, hr, hm] at this
  refine ⟨hcc, ?_, ?_⟩
  · apply (CollectSlices_error_iff self allParticles particlesToMetadata particleMap []).1.2
    exact ⟨p, hp, .orphanedParticle, by simp [sliceEntry, hr, hm]⟩
  · intro classifySlices hb
    obtain ⟨e, he⟩ := hcc
    exact ⟨e, by simp [produce, hb, he]⟩

/-- C9, on the example event without the record of particle C. -/
theorem orphaned_particle_aborts_witness :
    (∃ e, CollectClearCosmicRays Example.withoutC Example.withoutCMap
      [Example.pA, Example.pB, Example.pC] [] = .error e) ∧
    (∃ e, CollectSlices Example.neutrinoMode [Example.pA, Example.pB, Example.pC]
      Example.withoutC Example.withoutCMap [] = .error e) ∧
    (∃ e, produce Example.neutrinoMode id [Example.pA, Example.pB, Example.pC]
      Example.withoutC = .error e) :=
  have h := orphaned_particle_aborts Example.neutrinoMode [Example.pA, Example.pB, Example.pC]
    Example.withoutC Example.withoutCMap ⟨Example.pC, by decide, Example.pC, rfl, rfl⟩
  ⟨h.1, h.2.1, h.2.2 id rfl⟩

/-- C10: `IsTarget` is a total function: it returns false when the target key is
absent from the properties map, where `GetMetadataValue` on the same key fails,
and when the key is present it returns true exactly when the stored value
rounded to the nearest integer is non-zero, which for a finite value `m / 2 ^ k`
means that its magnitude is at least one half. -/
theorem IsTarget_never_raises (self : LArPandoraExternalEventBuilding)
    (metadata : PFParticleMetadata) :
    (mapFind metadata.propertiesMap self.m_targetKey = none →
      self.IsTarget metadata = false ∧
      GetMetadataValue metadata self.m_targetKey = .error (.missingKey self.m_targetKey)) ∧
    (∀ value, mapFind metadata.propertiesMap self.m_targetKey = some value →
      GetMetadataValue metadata self.m_targetKey = .ok value ∧
      (self.IsTarget metadata = true ↔ value.round.toBool = true)) ∧
    (∀ m k, (Float32.finite m k).round.toBool = true ↔ 2 ^ k ≤ 2 * m.natAbs) := by
  refine ⟨?_, ?_, round_toBool_finite⟩
  · intro h
    simp [IsTarget, GetMetadataValue, h]
  · intro value h
    simp [IsTarget, GetMetadataValue, h]

/-- C10, on the example event: the record of particle A has no "IsNeutrino" key,
the record of particle B has it with the value one. -/
theorem IsTarget_never_raises_witness :
    (Example.neutrinoMode.IsTarget Example.mdA = false ∧
      GetMetadataValue Example.mdA "IsNeutrino" = .error (.missingKey "IsNeutrino")) ∧
    (GetMetadataValue Example.mdB "IsNeutrino" = .ok Example.one ∧
      (Example.neutrinoMode.IsTarget Example.mdB = true ↔
        Example.one.round.toBool = true)) :=
  ⟨(IsTarget_never_raises Example.neutrinoMode Example.mdA).1 (by decide),
   (IsTarget_never_raises Example.neutrinoMode Example.mdB).2.1 Example.one (by decide)⟩

/-- C11, as stated, fails: B and I are roots of slice 0, the root of B records the
score 0.8 and the root of I, which comes last, records the score one; the Slice
of slice 0 carries the score 0.8, not the score of the last particle. -/
theorem CollectSlices_last_score_counterexample :
    CollectSlices Example.neutrinoMode [Example.pB, Example.pI]
        Example.twoScores Example.twoScoresMap [] =
      .ok [⟨Example.score, [Example.pB], [Example.pI], false⟩] ∧
    GetParentPFParticle Example.twoScoresMap Example.pB = .ok Example.pB ∧
    GetParentPFParticle Example.twoScoresMap Example.pI = .ok Example.pI ∧
    Example.pB ≠ Example.pI ∧
    inSlice Example.twoScores Example.twoScoresMap 0 Example.pB = true ∧
    inSlice Example.twoScores Example.twoScoresMap 0 Example.pI = true ∧
    rootScore Example.neutrinoMode Example.twoScores Example.twoScoresMap Example.pB =
      some Example.score ∧
    rootScore Example.neutrinoMode Example.twoScores Example.twoScoresMap Example.pI =
      some Example.one ∧
    Example.score ≠ Example.one :=
  ⟨rfl, rfl, rfl, by decide, by decide, by decide, by decide, by decide, by decide⟩

/-- C11, amended: the first write is kept.  When `CollectSlices` succeeds, the
Slice of a slice id carries the score recorded by the root of the first particle
of the input list whose root is not clear cosmic and has that slice index, also
when a later particle of the slice records another score. -/
theorem CollectSlices_first_score (self : LArPandoraExternalEventBuilding)
    (allParticles : PFParticleVector) (particlesToMetadata : PFParticleToMetadata)
    (particleMap : PFParticleMap) (slices : SliceVector)
    (h : CollectSlices self allParticles particlesToMetadata particleMap [] = .ok slices) :
    ∃ ids : List Nat, ids.Sorted (· < ·) ∧
      (∀ s, s ∈ ids ↔ ∃ p ∈ allParticles, inSlice particlesToMetadata particleMap s p = true) ∧
      List.Forall₂ (fun s sl => ∃ first metadata,
        allParticles.find? (inSlice particlesToMetadata particleMap s) = some first ∧
        rootMetadata particlesToMetadata particleMap first = some metadata ∧
        mapFind metadata.propertiesMap self.m_scoreKey = some sl.GetTargetScore) ids slices := by
  obtain ⟨ids, hsorted, hmem, hall⟩ :=
    CollectSlices_scores_of_ok self allParticles particlesToMetadata particleMap slices h
  refine ⟨ids, hsorted, hmem, hall.imp ?_⟩
  rintro s sl ⟨_, _, p, hf, hsc⟩
  obtain ⟨md, hmd, hv⟩ := (rootScore_eq_some_iff self _ _ p _).1 hsc
  exact ⟨p, md, hf, hmd, hv⟩

/-- C11, amended, on the example event: the Slice of slice 0 carries the score of
B, the first particle, and I comes last. -/
theorem CollectSlices_first_score_witness :
    ∃ ids : List Nat, ids.Sorted (· < ·) ∧
      (∀ s, s ∈ ids ↔ ∃ p ∈ [Example.pB, Example.pI],
        inSlice Example.twoScores Example.twoScoresMap s p = true) ∧
      List.Forall₂ (fun (s : Nat) (sl : Slice) => ∃ first metadata,
        [Example.pB, Example.pI].find? (inSlice Example.twoScores Example.twoScoresMap s) =
          some first ∧
        rootMetadata Example.twoScores Example.twoScoresMap first = some metadata ∧
        mapFind metadata.propertiesMap Example.neutrinoMode.m_scoreKey =
          some sl.GetTargetScore) ids
        [⟨Example.score, [Example.pB], [Example.pI], false⟩] :=
  CollectSlices_first_score Example.neutrinoMode [Example.pB, Example.pI]
    Example.twoScores Example.twoScoresMap [⟨Example.score, [Example.pB], [Example.pI], false⟩]
    rfl

/-- C12: if all particles of the input that are not clear cosmic and share a
slice index have roots recording the same score, then for every Slice returned
by `CollectSlices` and every particle in either of its buckets the target score
of the Slice is the value stored under the score key in the record of the root
of the particle. -/
theorem slice_score_is_root_score (self : LArPandoraExternalEventBuilding)
    (allParticles : PFParticleVector) (particlesToMetadata : PFParticleToMetadata)
    (particleMap : PFParticleMap) (slices : SliceVector)
    (hsame : ∀ p ∈ allParticles, ∀ q ∈ allParticles, ∀ s,
      inSlice particlesToMetadata particleMap s p = true →
      inSlice particlesToMetadata particleMap s q = true →
      rootScore self particlesToMetadata particleMap p =
        rootScore self particlesToMetadata particleMap q)
    (h : CollectSlices self allParticles particlesToMetadata particleMap [] = .ok slices) :
    ∀ sl ∈ slices, ∀ p, p ∈ sl.GetTargetHypothesis ∨ p ∈ sl.GetCosmicRayHypothesis →
      ∃ metadata, rootMetadata particlesToMetadata particleMap p = some metadata ∧
        mapFind metadata.propertiesMap self.m_scoreKey = some sl.GetTargetScore := by
  obtain ⟨ids, _, _, hall⟩ :=
    CollectSlices_scores_of_ok self allParticles particlesToMetadata particleMap slices h
  intro sl hsl p hp
  obtain ⟨s, _, hst, hsc, p0, hf, hp0⟩ := forall₂_exists_left hall sl hsl
  have hp0mem : p0 ∈ allParticles := List.mem_of_find?_eq_some hf
  have hp0s : inSlice particlesToMetadata particleMap s p0 = true := List.find?_some hf
  have hps : p ∈ allParticles ∧ inSlice particlesToMetadata particleMap s p = true := by
    rw [hst, hsc, List.mem_filter, List.mem_filter] at hp
    rcases hp with ⟨hp, hb⟩ | ⟨hp, hb⟩
    · exact ⟨hp, (inBucket_imp_inSlice self _ _ s true p hb).1⟩
    · exact ⟨hp, (inBucket_imp_inSlice self _ _ s false p hb).1⟩
  apply (rootScore_eq_some_iff self _ _ p _).1
  rw [hsame p hps.1 p0 hp0mem s hps.2 hp0s]
  exact hp0

/-- C12, on the example event: B, its daughter D and C form slice 0 and their
roots record the score 0.8, which is the score of the Slice. -/
theorem slice_score_is_root_score_witness :
    ∃ metadata, rootMetadata Example.particlesToMetadata Example.particleMap Example.pD =
        some metadata ∧
      mapFind metadata.propertiesMap Example.neutrinoMode.m_scoreKey =
        some Example.slice0.GetTargetScore :=
  slice_score_is_root_score Example.neutrinoMode [Example.pB, Example.pD, Example.pC]
    Example.particlesToMetadata Example.particleMap [Example.slice0]
    (fun p hp q hq _ _ _ =>
      (by decide : ∀ p ∈ [Example.pB, Example.pD, Example.pC],
        ∀ q ∈ [Example.pB, Example.pD, Example.pC],
        rootScore Example.neutrinoMode Example.particlesToMetadata Example.particleMap p =
          rootScore Example.neutrinoMode Example.particlesToMetadata Example.particleMap q)
        p hp q hq)
    rfl Example.slice0 (by decide) Example.pD (by decide)

/-- C13, as stated, fails: the particles B and K of the mapping `congruentSelf`
are distinct and have the distinct self-identifiers `1` and `2 ^ 32 + 1`, yet
`BuildPFParticleMap` fails, because both identifiers convert to the key `1`. -/
theorem BuildPFParticleMap_counterexample :
    BuildPFParticleMap Example.congruentSelf [] = .error .repeatedParticles ∧
    Example.congruentSelf.map Prod.fst = [Example.pB, Example.pK] ∧
    Example.pB.self = 1 ∧ Example.pK.self = 2 ^ 32 + 1 ∧
    narrowToInt Example.pB.self = 1 ∧ narrowToInt Example.pK.self = 1 :=
  ⟨rfl, rfl, rfl, rfl, by decide, by decide⟩

/-- C13, amended: for an input mapping, whose keys are distinct particles,
`BuildPFParticleMap` fails exactly when two distinct particles of the mapping
have self-identifiers that are congruent modulo `2 ^ 32`, that is, that convert
to the same `int` key, and then with the exception "Repeated PFParticles"; when
it succeeds the map has exactly one entry per input particle and finds each
input particle under its converted self-identifier.  When every self-identifier
is below `2 ^ 31`, it fails exactly when two distinct particles have the same
self-identifier. -/
theorem BuildPFParticleMap_fails_iff (particlesToMetadata : PFParticleToMetadata)
    (h : (particlesToMetadata.map Prod.fst).Nodup) :
    ((∃ e, BuildPFParticleMap particlesToMetadata [] = .error e) ↔
      ∃ p ∈ particlesToMetadata.map Prod.fst, ∃ q ∈ particlesToMetadata.map Prod.fst,
        p ≠ q ∧ p.self % 2 ^ 32 = q.self % 2 ^ 32) ∧
    (∀ e, BuildPFParticleMap particlesToMetadata [] = .error e → e = .repeatedParticles) ∧
    (∀ particleMap, BuildPFParticleMap particlesToMetadata [] = .ok particleMap →
      particleMap.length = particlesToMetadata.length ∧
      particleMap.map Prod.snd = particlesToMetadata.map Prod.fst ∧
      (∀ p ∈ particlesToMetadata.map Prod.fst,
        mapFind particleMap (narrowToInt p.self) = some p) ∧
      (∀ entry ∈ particleMap, entry.1 = narrowToInt entry.2.self)) ∧
    ((∀ p ∈ particlesToMetadata.map Prod.fst, p.self < 2 ^ 31) →
      ((∃ e, BuildPFParticleMap particlesToMetadata [] = .error e) ↔
        ∃ p ∈ particlesToMetadata.map Prod.fst, ∃ q ∈ particlesToMetadata.map Prod.fst,
          p ≠ q ∧ p.self = q.self)) := by
  obtain ⟨hok, herr⟩ := BuildPFParticleMap_eq particlesToMetadata []
  have hselves : particlesToMetadata.map (fun e => narrowToInt e.1.self) =
      (particlesToMetadata.map Prod.fst).map (fun p => narrowToInt p.self) := by
    simp
  have hcond : ((particlesToMetadata.map (fun e => narrowToInt e.1.self)).Nodup ∧
      ∀ e ∈ particlesToMetadata, narrowToInt e.1.self ∉ ([] : PFParticleMap).map Prod.fst) ↔
      ((particlesToMetadata.map Prod.fst).map (fun p => narrowToInt p.self)).Nodup := by
    rw [hselves]
    simp
  have hdup : ¬ ((particlesToMetadata.map Prod.fst).map (fun p => narrowToInt p.self)).Nodup ↔
      ∃ p ∈ particlesToMetadata.map Prod.fst, ∃ q ∈ particlesToMetadata.map Prod.fst,
        p ≠ q ∧ p.self % 2 ^ 32 = q.self % 2 ^ 32 := by
    constructor
    · intro hnd
      by_contra hno
      apply hnd
      apply List.Nodup.map_on _ h
      intro x hx y hy hxy
      by_contra hne
      exact hno ⟨x, hx, y, hy, hne, (narrowToInt_eq_iff _ _).1 hxy⟩
    · rintro ⟨p, hp, q, hq, hne, hpq⟩ hnd
      exact hne (List.inj_on_of_nodup_map hnd hp hq ((narrowToInt_eq_iff _ _).2 hpq))
  have hfail : (∃ e, BuildPFParticleMap particlesToMetadata [] = .error e) ↔
      ∃ p ∈ particlesToMetadata.map Prod.fst, ∃ q ∈ particlesToMetadata.map Prod.fst,
        p ≠ q ∧ p.self % 2 ^ 32 = q.self % 2 ^ 32 := by
    rw [← hdup]
    by_cases hnd : ((particlesToMetadata.map Prod.fst).map (fun p => narrowToInt p.self)).Nodup
    · have hres := hok (hcond.2 hnd)
      rw [hres]
      constructor
      · rintro ⟨e, he⟩
        simp at he
      · intro hc
        exact absurd hnd hc
    · have hres := herr (fun hc => hnd (hcond.1 hc))
      exact ⟨fun _ => hnd, fun _ => ⟨_, hres⟩⟩
  refine ⟨hfail, ?_, ?_, ?_⟩
  · intro e he
    by_cases hnd : ((particlesToMetadata.map Prod.fst).map (fun p => narrowToInt p.self)).Nodup
    · rw [hok (hcond.2 hnd)] at he
      simp at he
    · rw [herr (fun hc => hnd (hcond.1 hc)), Except.error.injEq] at he
      exact he.symm
  · intro particleMap hpm
    by_cases hnd : ((particlesToMetadata.map Prod.fst).map (fun p => narrowToInt p.self)).Nodup
    · have hres := hok (hcond.2 hnd)
      rw [List.nil_append] at hres
      rw [hres, Except.ok.injEq] at hpm
      subst hpm
      refine ⟨by simp, by simp, ?_, ?_⟩
      · have := mapFind_self (particlesToMetadata.map Prod.fst) hnd
        rw [List.map_map] at this
        exact this
      · intro entry hentry
        obtain ⟨x, _, rfl⟩ := List.mem_map.1 hentry
        rfl
    · rw [herr (fun hc => hnd (hcond.1 hc))] at hpm
      simp at hpm
  · intro hsmall
    rw [hfail]
    constructor
    · rintro ⟨p, hp, q, hq, hne, hpq⟩
      refine ⟨p, hp, q, hq, hne, ?_⟩
      have h1 := hsmall p hp
      have h2 := hsmall q hq
      omega
    · rintro ⟨p, hp, q, hq, hne, hpq⟩
      exact ⟨p, hp, q, hq, hne, by rw [hpq]⟩

/-- C13, amended, on the example event: the example mapping has distinct
converted self-identifiers and the map is built; in the mapping `congruentSelf`
the self-identifiers of B and K are congruent modulo `2 ^ 32`, and in the
mapping `repeatedSelf` the particles B and J have the self-identifier 1: the
construction fails in both. -/
theorem BuildPFParticleMap_fails_iff_witness :
    BuildPFParticleMap Example.particlesToMetadata [] = .ok Example.particleMap ∧
    BuildPFParticleMap Example.repeatedSelf [] = .error .repeatedParticles ∧
    ((∃ e, BuildPFParticleMap Example.congruentSelf [] = .error e) ↔
      ∃ p ∈ Example.congruentSelf.map Prod.fst, ∃ q ∈ Example.congruentSelf.map Prod.fst,
        p ≠ q ∧ p.self % 2 ^ 32 = q.self % 2 ^ 32) ∧
    (Example.particleMap.length = Example.particlesToMetadata.length ∧
      Example.particleMap.map Prod.snd = Example.particlesToMetadata.map Prod.fst ∧
      (∀ p ∈ Example.particlesToMetadata.map Prod.fst,
        mapFind Example.particleMap (narrowToInt p.self) = some p) ∧
      (∀ entry ∈ Example.particleMap, entry.1 = narrowToInt entry.2.self)) :=
  ⟨rfl, rfl, (BuildPFParticleMap_fails_iff Example.congruentSelf (by decide)).1,
   (BuildPFParticleMap_fails_iff Example.particlesToMetadata (by decide)).2.2.1
     Example.particleMap rfl⟩

/-- C14: the target-mode flag alone determines both metadata keys: with
`ShouldUseTestBeamMode` true the target key is "IsTestBeam" and the score key is
"TestBeamScore"; with the flag false or not given they are "IsNeutrino" and
"NuScore"; no other combination of the two keys occurs. -/
theorem create_keys :
    create (some true) = ⟨true, "IsTestBeam", "TestBeamScore"⟩ ∧
    create (some false) = ⟨false, "IsNeutrino", "NuScore"⟩ ∧
    create none = ⟨false, "IsNeutrino", "NuScore"⟩ ∧
    (∀ shouldUseTestBeamMode : Option Bool,
      ((create shouldUseTestBeamMode).m_useTestBeamMode = true ∧
        (create shouldUseTestBeamMode).m_targetKey = "IsTestBeam" ∧
        (create shouldUseTestBeamMode).m_scoreKey = "TestBeamScore") ∨
      ((create shouldUseTestBeamMode).m_useTestBeamMode = false ∧
        (create shouldUseTestBeamMode).m_targetKey = "IsNeutrino" ∧
        (create shouldUseTestBeamMode).m_scoreKey = "NuScore")) := by
  refine ⟨rfl, rfl, rfl, ?_⟩
  intro o
  rcases o with _ | _ | _
  · exact Or.inr ⟨rfl, rfl, rfl⟩
  · exact Or.inr ⟨rfl, rfl, rfl⟩
  · exact Or.inl ⟨rfl, rfl, rfl⟩

/-- C15: the result of `CollectConsolidatedParticles` depends only on which
particles are collected: two inputs with the same full particle list that
collect the same set of particles give the same list; in particular reordering
the clear cosmics, reordering the slices, and replacing the buckets of the
slices by lists with the same elements, reordered or with repetitions, leave
the result unchanged. -/
theorem CollectConsolidatedParticles_set_only (allParticles : PFParticleVector) :
    (∀ (clearCosmics clearCosmics' : PFParticleVector) (slices slices' : SliceVector),
      (∀ p, (p ∈ clearCosmics ∨ ∃ sl ∈ slices,
          p ∈ (if sl.IsTaggedAsTarget then sl.GetTargetHypothesis
               else sl.GetCosmicRayHypothesis)) ↔
        (p ∈ clearCosmics' ∨ ∃ sl ∈ slices',
          p ∈ (if sl.IsTaggedAsTarget then sl.GetTargetHypothesis
               else sl.GetCosmicRayHypothesis))) →
      CollectConsolidatedParticles allParticles clearCosmics slices [] =
        CollectConsolidatedParticles allParticles clearCosmics' slices' []) ∧
    (∀ (clearCosmics clearCosmics' : PFParticleVector) (slices slices' : SliceVector),
      clearCosmics.Perm clearCosmics' → slices.Perm slices' →
      CollectConsolidatedParticles allParticles clearCosmics slices [] =
        CollectConsolidatedParticles allParticles clearCosmics' slices' []) ∧
    (∀ (clearCosmics : PFParticleVector) (slices slices' : SliceVector),
      List.Forall₂ (fun sl sl' =>
        sl'.IsTaggedAsTarget = sl.IsTaggedAsTarget ∧
        (∀ p, p ∈ sl'.GetTargetHypothesis ↔ p ∈ sl.GetTargetHypothesis) ∧
        (∀ p, p ∈ sl'.GetCosmicRayHypothesis ↔ p ∈ sl.GetCosmicRayHypothesis)) slices slices' →
      CollectConsolidatedParticles allParticles clearCosmics slices [] =
        CollectConsolidatedParticles allParticles clearCosmics slices' []) := by
  refine ⟨fun cc cc' slices slices' h =>
    CollectConsolidatedParticles_congr allParticles cc cc' slices slices' h, ?_, ?_⟩
  · intro cc cc' slices slices' hcc hsl
    apply CollectConsolidatedParticles_congr
    intro p
    rw [hcc.mem_iff]
    constructor
    · rintro (h | ⟨sl, hsl', hp⟩)
      · exact Or.inl h
      · exact Or.inr ⟨sl, hsl.mem_iff.1 hsl', hp⟩
    · rintro (h | ⟨sl, hsl', hp⟩)
      · exact Or.inl h
      · exact Or.inr ⟨sl, hsl.mem_iff.2 hsl', hp⟩
  · intro cc slices slices' hall
    apply CollectConsolidatedParticles_congr
    intro p
    constructor
    · rintro (h | ⟨sl, hsl, hp⟩)
      · exact Or.inl h
      · obtain ⟨sl', hsl', htag, ht, hc⟩ := forall₂_exists_right hall sl hsl
        refine Or.inr ⟨sl', hsl', ?_⟩
        rw [htag]
        cases hb : sl.IsTaggedAsTarget
        · simp only [hb, Bool.false_eq_true, if_false] at hp ⊢
          exact (hc p).2 hp
        · simp only [hb, if_true] at hp ⊢
          exact (ht p).2 hp
    · rintro (h | ⟨sl', hsl', hp⟩)
      · exact Or.inl h
      · obtain ⟨sl, hsl, htag, ht, hc⟩ := forall₂_exists_left hall sl' hsl'
        refine Or.inr ⟨sl, hsl, ?_⟩
        rw [htag] at hp
        cases hb : sl.IsTaggedAsTarget
        · simp only [hb, Bool.false_eq_true, if_false] at hp ⊢
          exact (hc p).1 hp
        · simp only [hb, if_true] at hp ⊢
          exact (ht p).1 hp

/-- C15, on the example event: the clear cosmics and the slices are reordered
and the target bucket of slice 0 is reordered with a repetition. -/
theorem CollectConsolidatedParticles_set_only_witness :
    CollectConsolidatedParticles Example.particles [Example.pA, Example.pH]
        [⟨Example.score, [Example.pB, Example.pD], [Example.pC], true⟩, Example.slice3] [] =
      CollectConsolidatedParticles Example.particles [Example.pH, Example.pA]
        [Example.slice3, ⟨Example.score, [Example.pB, Example.pD], [Example.pC], true⟩] [] ∧
    CollectConsolidatedParticles Example.particles [Example.pA, Example.pH]
        [⟨Example.score, [Example.pB, Example.pD], [Example.pC], true⟩, Example.slice3] [] =
      CollectConsolidatedParticles Example.particles [Example.pA, Example.pH]
        [⟨Example.score, [Example.pD, Example.pB, Example.pD], [Example.pC], true⟩,
         Example.slice3] [] ∧
    CollectConsolidatedParticles Example.particles [Example.pA, Example.pH]
        [⟨Example.score, [Example.pB, Example.pD], [Example.pC], true⟩, Example.slice3] [] =
      [Example.pE, Example.pA, Example.pB, Example.pD, Example.pH] :=
  ⟨(CollectConsolidatedParticles_set_only Example.particles).2.1
      [Example.pA, Example.pH] [Example.pH, Example.pA]
      [⟨Example.score, [Example.pB, Example.pD], [Example.pC], true⟩, Example.slice3]
      [Example.slice3, ⟨Example.score, [Example.pB, Example.pD], [Example.pC], true⟩]
      (List.Perm.swap _ _ _) (List.Perm.swap _ _ _),
   (CollectConsolidatedParticles_set_only Example.particles).2.2
      [Example.pA, Example.pH]
      [⟨Example.score, [Example.pB, Example.pD], [Example.pC], true⟩, Example.slice3]
      [⟨Example.score, [Example.pD, Example.pB, Example.pD], [Example.pC], true⟩, Example.slice3]
      (List.Forall₂.cons
        ⟨rfl, fun p => by simp [Slice.GetTargetHypothesis]; tauto, fun _ => Iff.rfl⟩
        (List.Forall₂.cons ⟨rfl, fun _ => Iff.rfl, fun _ => Iff.rfl⟩ List.Forall₂.nil)),
   by decide⟩

/-- C16: end to end, with a classifier that keeps the hypotheses of every Slice,
on a successful run a particle of the input list is in the consolidated list
exactly when its root is clear cosmic, or its root is not clear cosmic and the
Slice of its slice index is tagged as target exactly when `IsTarget` holds for
the record of its root.  Here `ids` are the slice ids in ascending order and the
Slice of the slice id at a position of `ids` is the classified Slice at the same
position. -/
theorem produce_selected_hypothesis (self : LArPandoraExternalEventBuilding)
    (classifySlices : SliceVector → SliceVector) (allParticles : PFParticleVector)
    (particlesToMetadata : PFParticleToMetadata) (consolidatedParticles : PFParticleVector)
    (hclass : ∀ slices, List.Forall₂ SameHypotheses slices (classifySlices slices))
    (h : produce self classifySlices allParticles particlesToMetadata =
      .ok consolidatedParticles) :
    ∃ particleMap slices ids,
      BuildPFParticleMap particlesToMetadata [] = .ok particleMap ∧
      CollectSlices self allParticles particlesToMetadata particleMap [] = .ok slices ∧
      List.Sorted (· < ·) ids ∧
      (∀ s, s ∈ ids ↔
        ∃ p ∈ allParticles, inSlice particlesToMetadata particleMap s p = true) ∧
      List.Forall₂ (fun s sl =>
        sl.GetTargetHypothesis =
          allParticles.filter (inBucket self particlesToMetadata particleMap s true) ∧
        sl.GetCosmicRayHypothesis =
          allParticles.filter (inBucket self particlesToMetadata particleMap s false))
        ids (classifySlices slices) ∧
      (∀ p ∈ allParticles, (p ∈ consolidatedParticles ↔
        (rootIsClearCosmic particlesToMetadata particleMap p = true ∨
          ∃ metadata s sl, rootMetadata particlesToMetadata particleMap p = some metadata ∧
            isClearCosmic metadata = false ∧ sliceIndex metadata = some s ∧
            (s, sl) ∈ ids.zip (classifySlices slices) ∧
            sl.IsTaggedAsTarget = self.IsTarget metadata))) ∧
      (∀ p ∈ consolidatedParticles, p ∈ allParticles) := by
  obtain ⟨pm, cc, slices, hb, hc, hs, hout⟩ :=
    produce_of_ok self classifySlices allParticles particlesToMetadata consolidatedParticles h
  obtain ⟨ids, hsorted, hmem, hall⟩ := classified_buckets self allParticles
    particlesToMetadata pm slices (classifySlices slices) (hclass slices) hs
  have hcc := (CollectClearCosmicRays_of_ok _ _ _ _ _ hc).1
  rw [List.nil_append] at hcc
  subst hcc
  subst hout
  refine ⟨pm, slices, ids, hb, hs, hsorted, hmem, hall, ?_, ?_⟩
  · intro p hp
    rw [mem_consolidated_iff self allParticles particlesToMetadata pm ids _ hall p]
    exact ⟨fun h => h.2, fun h => ⟨hp, h⟩⟩
  · intro p hp
    exact ((mem_consolidated_iff self allParticles particlesToMetadata pm ids _ hall p).1 hp).1

/-- C16, on the example event with the classifier that tags the Slices of a
positive score: both Slices are tagged; C and E, which are not flagged as the
neutrino, are not in the consolidated list, while B and its daughter D are. -/
theorem produce_selected_hypothesis_witness :
    produce Example.neutrinoMode Example.tagPositive Example.particles
        Example.particlesToMetadata =
      .ok [Example.pA, Example.pB, Example.pD, Example.pH] ∧
    ∃ particleMap slices ids,
      BuildPFParticleMap Example.particlesToMetadata [] = .ok particleMap ∧
      CollectSlices Example.neutrinoMode Example.particles Example.particlesToMetadata
        particleMap [] = .ok slices ∧
      List.Sorted (· < ·) ids ∧
      (∀ s, s ∈ ids ↔
        ∃ p ∈ Example.particles, inSlice Example.particlesToMetadata particleMap s p = true) ∧
      List.Forall₂ (fun (s : Nat) (sl : Slice) =>
        sl.GetTargetHypothesis = Example.particles.filter
          (inBucket Example.neutrinoMode Example.particlesToMetadata particleMap s true) ∧
        sl.GetCosmicRayHypothesis = Example.particles.filter
          (inBucket Example.neutrinoMode Example.particlesToMetadata particleMap s false))
        ids (Example.tagPositive slices) ∧
      (∀ p ∈ Example.particles,
        (p ∈ [Example.pA, Example.pB, Example.pD, Example.pH] ↔
        (rootIsClearCosmic Example.particlesToMetadata particleMap p = true ∨
          ∃ metadata s sl,
            rootMetadata Example.particlesToMetadata particleMap p = some metadata ∧
            isClearCosmic metadata = false ∧ sliceIndex metadata = some s ∧
            (s, sl) ∈ ids.zip (Example.tagPositive slices) ∧
            sl.IsTaggedAsTarget = Example.neutrinoMode.IsTarget metadata))) ∧
      (∀ p ∈ [Example.pA, Example.pB, Example.pD, Example.pH],
        p ∈ Example.particles) :=
  ⟨rfl, produce_selected_hypothesis Example.neutrinoMode Example.tagPositive Example.particles
    Example.particlesToMetadata [Example.pA, Example.pB, Example.pD, Example.pH]
    (fun slices => by
      unfold Example.tagPositive
      rw [List.forall₂_map_right_iff, List.forall₂_same]
      exact fun _ _ => ⟨rfl, rfl⟩)
    rfl⟩

/-- C17: a hierarchy is not split.  When `CollectClearCosmicRays` and
`CollectSlices` succeed, two particles of the input that resolve to the same
root are both in the clear-cosmic list or both in the same hypothesis bucket of
the same Slice; and whatever flags the classifier sets, the consolidated list
contains both or neither. -/
theorem hierarchy_not_split (self : LArPandoraExternalEventBuilding)
    (allParticles : PFParticleVector) (particlesToMetadata : PFParticleToMetadata)
    (particleMap : PFParticleMap) (clearCosmics : PFParticleVector) (slices : SliceVector)
    (p q root : PFParticle) (hp : p ∈ allParticles) (hq : q ∈ allParticles)
    (hproot : GetParentPFParticle particleMap p = .ok root)
    (hqroot : GetParentPFParticle particleMap q = .ok root)
    (h1 : CollectClearCosmicRays particlesToMetadata particleMap allParticles [] =
      .ok clearCosmics)
    (h2 : CollectSlices self allParticles particlesToMetadata particleMap [] = .ok slices) :
    ((p ∈ clearCosmics ∧ q ∈ clearCosmics) ∨
      ∃ sl ∈ slices, (p ∈ sl.GetTargetHypothesis ∧ q ∈ sl.GetTargetHypothesis) ∨
        (p ∈ sl.GetCosmicRayHypothesis ∧ q ∈ sl.GetCosmicRayHypothesis)) ∧
    (∀ classified, List.Forall₂ SameHypotheses slices classified →
      (p ∈ CollectConsolidatedParticles allParticles clearCosmics classified [] ↔
        q ∈ CollectConsolidatedParticles allParticles clearCosmics classified [])) := by
  have hmeta : rootMetadata particlesToMetadata particleMap p =
      rootMetadata particlesToMetadata particleMap q :=
    rootMetadata_congr _ _ p q (hproot.trans hqroot.symm)
  have hccpq : rootIsClearCosmic particlesToMetadata particleMap p =
      rootIsClearCosmic particlesToMetadata particleMap q := by
    unfold rootIsClearCosmic
    rw [hmeta]
  have hbucket : ∀ s t, inBucket self particlesToMetadata particleMap s t p =
      inBucket self particlesToMetadata particleMap s t q := by
    intro s t
    unfold inBucket
    rw [hmeta]
  have hcc := (CollectClearCosmicRays_of_ok _ _ _ _ _ h1).1
  rw [List.nil_append] at hcc
  subst hcc
  refine ⟨?_, ?_⟩
  · obtain ⟨ids, _, hmem, hall⟩ :=
      CollectSlices_of_ok self allParticles particlesToMetadata particleMap slices h2
    obtain ⟨o, ho⟩ := CollectSlices_entries self allParticles particlesToMetadata particleMap
      [] slices h2 p hp
    cases o with
    | none =>
      left
      obtain ⟨hc, _, _⟩ := sliceEntry_none self _ _ p ho
      exact ⟨List.mem_filter.2 ⟨hp, hc⟩, List.mem_filter.2 ⟨hq, hccpq ▸ hc⟩⟩
    | some val =>
      right
      obtain ⟨s, sc, t⟩ := val
      obtain ⟨_, hs, hb⟩ := sliceEntry_some self _ _ p s sc t ho
      have hps : inSlice particlesToMetadata particleMap s p = true := by simp [hs s]
      have hpb : inBucket self particlesToMetadata particleMap s t p = true := by simp [hb s t]
      have hqb : inBucket self particlesToMetadata particleMap s t q = true := by
        rw [← hbucket s t]
        exact hpb
      obtain ⟨sl, hsl, hst, hsc, _⟩ := forall₂_exists_right hall s ((hmem s).2 ⟨p, hp, hps⟩)
      refine ⟨sl, hsl, ?_⟩
      cases t
      · right
        rw [hsc]
        exact ⟨List.mem_filter.2 ⟨hp, hpb⟩, List.mem_filter.2 ⟨hq, hqb⟩⟩
      · left
        rw [hst]
        exact ⟨List.mem_filter.2 ⟨hp, hpb⟩, List.mem_filter.2 ⟨hq, hqb⟩⟩
  · intro classified hclass
    obtain ⟨ids, _, _, hall⟩ := classified_buckets self allParticles particlesToMetadata
      particleMap slices classified hclass h2
    rw [mem_consolidated_iff self allParticles particlesToMetadata particleMap ids classified hall p,
      mem_consolidated_iff self allParticles particlesToMetadata particleMap ids classified hall q,
      hmeta, hccpq]
    exact ⟨fun h => ⟨hq, h.2⟩, fun h => ⟨hp, h.2⟩⟩

/-- C17, on the example event: D is a daughter of B; both are in the target
bucket of the Slice of slice 0, and both are in the consolidated list when that
Slice is tagged as target. -/
theorem hierarchy_not_split_witness :
    ((Example.pD ∈ [Example.pA, Example.pH] ∧ Example.pB ∈ [Example.pA, Example.pH]) ∨
      ∃ sl ∈ Example.slices,
        (Example.pD ∈ sl.GetTargetHypothesis ∧ Example.pB ∈ sl.GetTargetHypothesis) ∨
        (Example.pD ∈ sl.GetCosmicRayHypothesis ∧ Example.pB ∈ sl.GetCosmicRayHypothesis)) ∧
    (Example.pD ∈ CollectConsolidatedParticles Example.particles [Example.pA, Example.pH]
        (Example.tagPositive Example.slices) [] ↔
      Example.pB ∈ CollectConsolidatedParticles Example.particles [Example.pA, Example.pH]
        (Example.tagPositive Example.slices) []) :=
  have h := hierarchy_not_split Example.neutrinoMode Example.particles
    Example.particlesToMetadata Example.particleMap [Example.pA, Example.pH] Example.slices
    Example.pD Example.pB Example.pB (by decide) (by decide) rfl rfl rfl rfl
  ⟨h.1, h.2 (Example.tagPositive Example.slices) (by
    unfold Example.tagPositive
    rw [List.forall₂_map_right_iff, List.forall₂_same]
    exact fun _ _ => ⟨rfl, rfl⟩)⟩

end LArPandoraExternalEventBuilding

end lar_pandora
